import Mathlib

/-!
Verification of the epub-tools repository (merge.py, set_cover.py,
utils/epub_utils.py) against its natural-language specification.

The Python code is shallowly embedded: XML documents become inductive
trees, zip archives become association lists from entry names to
contents, Python dictionaries become insertion-ordered association
lists, and the imperative merge loop becomes an explicit fold over a
state record, with early `return False` and uncaught exceptions
modelled by a dedicated loop-result type.
-/

set_option autoImplicit false

/-! ## Small utilities mirroring Python helpers -/

/-- Python truthiness test `if not current_id` on the result of
`element.get(attr)`: `None` and the empty string are falsy. -/
def pyFalsy : Option String → Bool
  | none => true
  | some s => s == ""

/-- Lookup in an association list of strings (first match wins), as in
a Python dict read. -/
def alistLookup (l : List (String × String)) (k : String) : Option String :=
  (l.find? (fun p => p.1 == k)).map (fun p => p.2)

/-- Python dict assignment `d[k] = v`: replace the value of an existing
key in place, otherwise append the new pair (insertion order kept). -/
def dictInsert (l : List (String × String)) (k v : String) :
    List (String × String) :=
  if l.any (fun p => p.1 == k) then
    l.map (fun p => if p.1 == k then (k, v) else p)
  else l ++ [(k, v)]

/-- Apply a rename mapping to a string: mapped values are replaced,
values absent from the mapping are left untouched. -/
def applyMap (m : List (String × String)) (s : String) : String :=
  match alistLookup m s with
  | some v => v
  | none => s

/-! ## Path helpers (`pathlib.Path` as used by the code) -/

/-- Split a list of characters on `/` (kernel-computable equivalent of
`String.splitOn "/"`). -/
def splitCharsAux : List Char → List Char → List String
  | [], acc => [String.mk acc.reverse]
  | c :: cs, acc =>
    if c = '/' then String.mk acc.reverse :: splitCharsAux cs []
    else splitCharsAux cs (c :: acc)

/-- Split a path on `/`. -/
def splitPath (p : String) : List String := splitCharsAux p.data []

/-- `Path(p).name`: the final path component. -/
def basenamePy (p : String) : String := (splitPath p).getLastD ""

/-- `str(Path(p).parent)`: everything before the final component, `"."`
for a bare file name. -/
def dirnamePy (p : String) : String :=
  let parts := splitPath p
  if parts.length ≤ 1 then "." else String.intercalate "/" parts.dropLast

/-- `str(Path(a) / b)` for the relative paths used by the code. -/
def pathJoin (a b : String) : String :=
  if a == "." then b else a ++ "/" ++ b

/-- `add_prefix_to_file_path` from epub_utils.py: keep the directory,
put the prefix in front of the file name. -/
def add_prefix_to_file_path (pfx : String) (filePath : String) : String :=
  pathJoin (dirnamePy filePath) (pfx ++ basenamePy filePath)

/-! ## XML element trees and the reference rewriter

`replace_all_hrefs` / `replace_all_src` parse a document, collect the
root element (when it carries the attribute) together with every
descendant carrying the attribute, and replace each attribute value
that is a key of the rename mapping.  The element type is a mutual
inductive so that all functions over it are structurally recursive. -/

mutual
inductive Element : Type where
  | mk (tag : String) (attrs : List (String × String)) (children : ElemList)
inductive ElemList : Type where
  | nil : ElemList
  | cons (e : Element) (es : ElemList) : ElemList
end

/-- `e.attrib[name]`-style update on an attribute list: rewrite the
value at an existing key. -/
def alistSet (attrs : List (String × String)) (k v : String) :
    List (String × String) :=
  attrs.map (fun p => if p.1 == k then (k, v) else p)

/-- One element's attribute update, as done by the loop body of
`replace_all_hrefs` / `replace_all_src_element`: if the attribute is
present and its value is a key of the mapping, set it to the mapped
value; otherwise leave the attributes alone. -/
def rewriteAttrs (nm : String) (m : List (String × String))
    (attrs : List (String × String)) : List (String × String) :=
  match alistLookup attrs nm with
  | none => attrs
  | some v =>
    match alistLookup m v with
    | none => attrs
    | some v2 => alistSet attrs nm v2

mutual
/-- Net effect of `replace_all_hrefs`/`replace_all_src_element` on a
parsed tree: rewrite the attribute `nm` on the root and on every
descendant. -/
def rewriteTree (nm : String) (m : List (String × String)) :
    Element → Element
  | Element.mk t attrs cs =>
      Element.mk t (rewriteAttrs nm m attrs) (rewriteTreeL nm m cs)
def rewriteTreeL (nm : String) (m : List (String × String)) :
    ElemList → ElemList
  | ElemList.nil => ElemList.nil
  | ElemList.cons c cs =>
      ElemList.cons (rewriteTree nm m c) (rewriteTreeL nm m cs)
end

mutual
/-- All values of attribute `nm` occurring in the tree (root included),
the values the rewriter looks up in the mapping. -/
def collectAttr (nm : String) : Element → List String
  | Element.mk _ attrs cs =>
      (match alistLookup attrs nm with
       | some v => [v]
       | none => []) ++ collectAttrL nm cs
def collectAttrL (nm : String) : ElemList → List String
  | ElemList.nil => []
  | ElemList.cons c cs => collectAttr nm c ++ collectAttrL nm cs
end

/-- If the element's `nm` attribute value (when present) is not a key
of the mapping, its attribute list is unchanged. -/
theorem rewriteAttrs_id (nm : String) (m : List (String × String))
    (attrs : List (String × String))
    (h : ∀ v, alistLookup attrs nm = some v → alistLookup m v = none) :
    rewriteAttrs nm m attrs = attrs := by
  unfold rewriteAttrs
  cases hl : alistLookup attrs nm with
  | none => rfl
  | some v => simp [h v hl]

mutual
/-- Rewriting with a mapping disjoint from all attribute values in the
tree is the identity. -/
theorem rewriteTree_id (nm : String) (m : List (String × String)) :
    ∀ (e : Element),
    (∀ v ∈ collectAttr nm e, alistLookup m v = none) →
    rewriteTree nm m e = e
  | Element.mk t attrs cs => by
    intro h
    unfold rewriteTree
    have hattr : ∀ v, alistLookup attrs nm = some v →
        alistLookup m v = none := by
      intro v hv
      apply h
      unfold collectAttr
      rw [hv]
      simp
    have hcs : ∀ v ∈ collectAttrL nm cs, alistLookup m v = none := by
      intro v hv
      apply h
      unfold collectAttr
      cases alistLookup attrs nm <;> simp [hv]
    rw [rewriteAttrs_id nm m attrs hattr, rewriteTreeL_id nm m cs hcs]
theorem rewriteTreeL_id (nm : String) (m : List (String × String)) :
    ∀ (cs : ElemList),
    (∀ v ∈ collectAttrL nm cs, alistLookup m v = none) →
    rewriteTreeL nm m cs = cs
  | ElemList.nil => by intro _; rfl
  | ElemList.cons c cs => by
    intro h
    unfold rewriteTreeL
    rw [rewriteTree_id nm m c, rewriteTreeL_id nm m cs]
    · intro v hv
      apply h
      unfold collectAttrL
      simp [hv]
    · intro v hv
      apply h
      unfold collectAttrL
      simp [hv]
end

/-! ## Data model of the EPUB structures the code reads -/

/-- One `<navPoint>` of an NCX navigation map, flattened to the fields
the merge touches: the label, the navigation target (`src` of its
content child, the attribute `replace_all_src_element` rewrites) and
the integer `playOrder` attribute. -/
structure NavPoint where
  label : String
  src : String
  playOrder : Int
deriving Repr, DecidableEq

/-- A parsed `toc.ncx` document: the root element's attributes (the
rewriter also checks the root for a `src` attribute) and the result of
`find("ns:navMap")`, `none` when the element is absent. -/
structure TocRoot where
  rootAttrs : List (String × String)
  navMap : Option (List NavPoint)
deriving Repr, DecidableEq

/-- A manifest `<item>`: `get` of a missing attribute is `none`. The
`href` attribute is modelled as always present (the claims under
verification never exercise a missing `href`). -/
structure ManifestItem where
  id : Option String
  href : String
  mediaType : Option String
deriving Repr, DecidableEq

/-- A spine `<itemref>`. -/
structure SpineItem where
  idref : Option String
deriving Repr, DecidableEq

/-- A metadata `<meta>` tag as inspected by set_cover.py. -/
structure MetaTag where
  name : Option String
  content : Option String
deriving Repr, DecidableEq

/-- A parsed package document (`content.opf`): the results of
`find("ns:manifest")`, `find("ns:spine")` and `find("ns:metadata")`,
each `none` when the element is absent. -/
structure OpfDoc where
  manifest : Option (List ManifestItem)
  spine : Option (List SpineItem)
  metadata : Option (List MetaTag)
deriving Repr, DecidableEq

/-- Contents of a zip entry.  Raw bytes are opaque strings; entries the
code parses are carried in parsed form, so that feeding a non-XML entry
to an XML parser is visible as a parse error. -/
inductive Content : Type where
  | bytes (s : String)
  | xml (e : Element)
  | toc (t : TocRoot)
  | opf (d : OpfDoc)

/-- Lookup in an association list of contents (zip entry read). -/
def alistLookupC (l : List (String × Content)) (k : String) :
    Option Content :=
  (l.find? (fun p => p.1 == k)).map (fun p => p.2)

/-- Python dict assignment for `path_and_contents_dict`. -/
def dictInsertC (l : List (String × Content)) (k : String) (v : Content) :
    List (String × Content) :=
  if l.any (fun p => p.1 == k) then
    l.map (fun p => if p.1 == k then (k, v) else p)
  else l ++ [(k, v)]

/-- One input EPUB archive as epub_merge consumes it: the raw
container.xml bytes, the package-document path extracted from it by
`get_location_of_content_opf_file`, the parsed package document, and
the remaining zip entries by path.  Opening the archive, reading
container.xml and parsing the package document are modelled as
succeeding; the claims under verification only exercise failures past
that point. -/
structure Archive where
  containerXml : String
  opfPath : String
  opf : OpfDoc
  files : List (String × Content)

/-! ## Constants from epub_utils.py -/

def MIMETYPE_PATH : String := "mimetype"

def MIMETYPE_DATA : String := "application/epub+zip"

def CONTAINER_XML_PATH : String := "META-INF/container.xml"

def COVER_NAME : String := "cover.jpg"

def ncxMediaType : String := "application/x-dtbncx+xml"

def xhtmlMediaType : String := "application/xhtml+xml"

/-! ## Errors, outcomes and the loop skeleton -/

/-- Uncaught Python exceptions the merge can raise. -/
inductive PyError : Type where
  | attributeError
  | typeError
  | keyError
  | xmlSyntaxError
  | runtimeError
deriving Repr, DecidableEq

/-- How a call to `epub_merge` ends: returning `True`, returning
`False`, or raising an uncaught exception. -/
inductive Outcome : Type where
  | ok
  | failed
  | raised (e : PyError)
deriving Repr, DecidableEq

/-- Result of one loop-body step or of a whole loop: continue with the
updated state, or terminate the surrounding call (early `return` or an
uncaught exception), keeping the state reached so far — in particular
the entries already written to the output zip. -/
inductive LoopRes (σ : Type) : Type where
  | cont (s : σ)
  | halt (o : Outcome) (s : σ)

/-- The state carried by a loop result, whichever way it ended. -/
def LoopRes.stateOf {σ : Type} : LoopRes σ → σ
  | LoopRes.cont s => s
  | LoopRes.halt _ s => s

/-- Run loop-body `f` over a list, stopping at the first halt. -/
def foldLoop {σ α : Type} (f : σ → α → LoopRes σ) : σ → List α → LoopRes σ
  | s, [] => LoopRes.cont s
  | s, x :: xs =>
    match f s x with
    | LoopRes.cont s2 => foldLoop f s2 xs
    | LoopRes.halt o s2 => LoopRes.halt o s2

/-- `enumerate(files_to_merge)`. -/
def pyEnum {α : Type} : Nat → List α → List (Nat × α)
  | _, [] => []
  | n, a :: l => (n, a) :: pyEnum (n + 1) l

/-! ## The functions of epub_utils.py used by the merge -/

/-- `zip_file.read(path)`: `KeyError` when the entry is absent. -/
def readFile (ar : Archive) (p : String) : Except PyError Content :=
  match alistLookupC ar.files p with
  | some c => Except.ok c
  | none => Except.error PyError.keyError

/-- `get_toc_ncx`: read the entry and parse it as an NCX document. -/
def get_toc_ncx (ar : Archive) (p : String) : Except PyError TocRoot :=
  match readFile ar p with
  | Except.error e => Except.error e
  | Except.ok (Content.toc t) => Except.ok t
  | Except.ok _ => Except.error PyError.xmlSyntaxError

/-- `replace_all_hrefs(file_contents, updated_hrefs)`: parse the
contents, rewrite every `href` attribute whose value is a key of the
mapping (root element included), reserialize. -/
def replace_all_hrefs (c : Content) (m : List (String × String)) :
    Except PyError Content :=
  match c with
  | Content.xml e => Except.ok (Content.xml (rewriteTree "href" m e))
  | _ => Except.error PyError.xmlSyntaxError

/-- `replace_all_src(file_contents, updated_src)`: same for `src`. -/
def replace_all_src (c : Content) (m : List (String × String)) :
    Except PyError Content :=
  match c with
  | Content.xml e => Except.ok (Content.xml (rewriteTree "src" m e))
  | _ => Except.error PyError.xmlSyntaxError

/-- `replace_all_src_element` applied to the adopted NCX root: rewrite
the `src` attribute on the root element and on every navigation
point's target. -/
def replaceAllSrcToc (t : TocRoot) (m : List (String × String)) : TocRoot :=
  { rootAttrs := rewriteAttrs "src" m t.rootAttrs,
    navMap := t.navMap.map (fun l =>
      l.map (fun np => { np with src := applyMap m np.src })) }

/-- Line 142 of merge.py: `replace_all_src_element(output_toc_root,
updated_files)` — called unconditionally, so when no navigation
document has been adopted yet the Python `None` receives an attribute
access and an `AttributeError` is raised. -/
def replace_all_src_element (r : Option TocRoot)
    (m : List (String × String)) : Except PyError TocRoot :=
  match r with
  | none => Except.error PyError.attributeError
  | some t => Except.ok (replaceAllSrcToc t m)

/-! ## The merge orchestrator (epub_merge in merge.py) -/

/-- Mutable state of `epub_merge` across the archive loop: entries
written to the output zip so far (in order), the adopted output
package-document location and tree, the combined manifest and spine
children, and the adopted navigation document. -/
structure MState where
  out : List (String × Content)
  opfLoc : Option String
  baseOpf : Option OpfDoc
  outManifest : List ManifestItem
  outSpine : List SpineItem
  tocPath : Option String
  tocRoot : Option TocRoot

/-- Per-archive state: the merge state plus the archive-scoped
`path_and_contents_dict` buffer and `updated_files` rename mapping. -/
structure ArchState where
  st : MState
  updatedFiles : List (String × String)
  pathContents : List (String × Content)

/-- The namespaced form of a non-navigation manifest entry: id prefixed
with `"{index}_"`, href's file name likewise. -/
def nsItem (idx : Nat) (i : ManifestItem) : ManifestItem :=
  { i with
    id := some (toString idx ++ "_" ++ i.id.getD ""),
    href := add_prefix_to_file_path (toString idx ++ "_") i.href }

/-- Body of the manifest loop (merge.py lines 85-134) for one `<item>`. -/
def processManifestEntry (idx : Nat) (parent : String) (ar : Archive)
    (a : ArchState) (i : ManifestItem) : LoopRes ArchState :=
  if pyFalsy i.id then
    LoopRes.halt Outcome.failed a
  else
    let filePfx := toString idx ++ "_"
    let path_i := pathJoin parent i.href
    if i.mediaType = some ncxMediaType then
      match a.st.tocRoot with
      | none =>
        match get_toc_ncx ar path_i with
        | Except.error e => LoopRes.halt (Outcome.raised e) a
        | Except.ok t =>
          LoopRes.cont { a with st := { a.st with
            outManifest := a.st.outManifest ++ [i],
            tocPath := some path_i,
            tocRoot := some t } }
      | some outToc =>
        match get_toc_ncx ar path_i with
        | Except.error e => LoopRes.halt (Outcome.raised e) a
        | Except.ok t =>
          match t.navMap with
          | none => LoopRes.halt (Outcome.raised PyError.typeError) a
          | some nm =>
            match outToc.navMap with
            | none => LoopRes.halt (Outcome.raised PyError.typeError) a
            | some onm =>
              let offset : Int := onm.length
              let nm2 := nm.map (fun np =>
                { np with playOrder := np.playOrder + offset })
              LoopRes.cont { a with st := { a.st with
                tocRoot := some { outToc with navMap := some (onm ++ nm2) } } }
    else
      let updatedHref := add_prefix_to_file_path filePfx i.href
      match readFile ar path_i with
      | Except.error e => LoopRes.halt (Outcome.raised e) a
      | Except.ok fileContents =>
        let uf := dictInsert a.updatedFiles i.href updatedHref
        let updatedPath := pathJoin parent updatedHref
        let i2 := { i with
          id := some (filePfx ++ i.id.getD ""), href := updatedHref }
        if i.mediaType = some xhtmlMediaType then
          LoopRes.cont { a with
            updatedFiles := uf,
            pathContents := dictInsertC a.pathContents updatedPath fileContents,
            st := { a.st with outManifest := a.st.outManifest ++ [i2] } }
        else
          LoopRes.cont { a with
            updatedFiles := uf,
            st := { a.st with
              out := a.st.out ++ [(updatedPath, fileContents)],
              outManifest := a.st.outManifest ++ [i2] } }

/-- Loop over `path_and_contents_dict` (merge.py lines 136-140):
rewrite hrefs then srcs of every buffered body and write it. -/
def writeBuffered (pc : List (String × Content))
    (m : List (String × String)) (st : MState) : LoopRes MState :=
  match pc with
  | [] => LoopRes.cont st
  | (p, c) :: rest =>
    match replace_all_hrefs c m with
    | Except.error e => LoopRes.halt (Outcome.raised e) st
    | Except.ok c1 =>
      match replace_all_src c1 m with
      | Except.error e => LoopRes.halt (Outcome.raised e) st
      | Except.ok c2 =>
        writeBuffered rest m { st with out := st.out ++ [(p, c2)] }

/-- Body of the spine loop (merge.py lines 146-155). -/
def processSpineEntry (idx : Nat) (st : MState) (i : SpineItem) :
    LoopRes MState :=
  if pyFalsy i.idref then
    LoopRes.halt Outcome.failed st
  else
    LoopRes.cont { st with outSpine := st.outSpine ++
      [{ idref := some (toString idx ++ "_" ++ i.idref.getD "") }] }

/-- First-visit bookkeeping (merge.py lines 44-47): adopt the output
package-document location and copy the container descriptor. -/
def openPhase (st : MState) (ar : Archive) : MState :=
  if st.opfLoc = none then
    { st with
      opfLoc := some ar.opfPath,
      out := st.out ++ [(CONTAINER_XML_PATH, Content.bytes ar.containerXml)] }
  else st

/-- Adoption of the output tree (merge.py lines 57-72): on the first
archive, check that manifest and spine elements exist (clean `False`
otherwise) and clear them. -/
def adoptPhase (st : MState) (ar : Archive) : LoopRes MState :=
  if st.baseOpf = none then
    match ar.opf.manifest with
    | none => LoopRes.halt Outcome.failed st
    | some _ =>
      match ar.opf.spine with
      | none => LoopRes.halt Outcome.failed st
      | some _ => LoopRes.cont { st with baseOpf := some ar.opf }
  else LoopRes.cont st

/-- One iteration of the archive loop of `epub_merge`. -/
def processArchive (st : MState) (p : Nat × Archive) : LoopRes MState :=
  let idx := p.1
  let ar := p.2
  let st1 := openPhase st ar
  match adoptPhase st1 ar with
  | LoopRes.halt o s => LoopRes.halt o s
  | LoopRes.cont st2 =>
    let parent := dirnamePy ar.opfPath
    match ar.opf.manifest with
    | none => LoopRes.halt (Outcome.raised PyError.typeError) st2
    | some items =>
      match foldLoop (processManifestEntry idx parent ar)
          { st := st2, updatedFiles := [], pathContents := [] } items with
      | LoopRes.halt o a => LoopRes.halt o a.st
      | LoopRes.cont a =>
        match writeBuffered a.pathContents a.updatedFiles a.st with
        | LoopRes.halt o s => LoopRes.halt o s
        | LoopRes.cont st3 =>
          match replace_all_src_element st3.tocRoot a.updatedFiles with
          | Except.error e => LoopRes.halt (Outcome.raised e) st3
          | Except.ok t2 =>
            let st4 := { st3 with tocRoot := some t2 }
            match ar.opf.spine with
            | none => LoopRes.halt (Outcome.raised PyError.typeError) st4
            | some sp => foldLoop (processSpineEntry idx) st4 sp

/-- Result of a call to `epub_merge`: the outcome, and the output zip
entries in the order written (on failure, the entries already written
are what remains on disk in the partially-written destination file). -/
structure MergeResult where
  outcome : Outcome
  out : List (String × Content)

/-- Initial merge state: the mimetype marker is written before
anything else (merge.py line 24). -/
def initState : MState :=
  { out := [(MIMETYPE_PATH, Content.bytes MIMETYPE_DATA)],
    opfLoc := none,
    baseOpf := none,
    outManifest := [],
    outSpine := [],
    tocPath := none,
    tocRoot := none }

/-- `epub_merge(files_to_merge, dst_file)` from merge.py. -/
def epub_merge (archives : List Archive) : MergeResult :=
  match foldLoop processArchive initState (pyEnum 0 archives) with
  | LoopRes.halt o s => { outcome := o, out := s.out }
  | LoopRes.cont s =>
    match s.opfLoc, s.baseOpf with
    | some loc, some base =>
      let finalOpf := { base with
        manifest := some s.outManifest, spine := some s.outSpine }
      let out1 := s.out ++ [(loc, Content.opf finalOpf)]
      match s.tocRoot, s.tocPath with
      | some t, some p =>
        { outcome := Outcome.ok, out := out1 ++ [(p, Content.toc t)] }
      | _, _ => { outcome := Outcome.ok, out := out1 }
    | _, _ => { outcome := Outcome.raised PyError.typeError, out := s.out }

/-! ## Frame lemmas: every step only appends to the output zip and
never revisits the first-archive bookkeeping fields -/

theorem foldLoop_frame {σ α : Type} (P : σ → σ → Prop) (f : σ → α → LoopRes σ)
    (hrefl : ∀ s, P s s)
    (htrans : ∀ a b c, P a b → P b c → P a c)
    (hstep : ∀ s x, P s ((f s x).stateOf)) :
    ∀ (l : List α) (s : σ), P s ((foldLoop f s l).stateOf) := by
  intro l
  induction l with
  | nil => intro s; exact hrefl s
  | cons x xs ih =>
    intro s
    show P s ((match f s x with
      | LoopRes.cont s2 => foldLoop f s2 xs
      | LoopRes.halt o s2 => LoopRes.halt o s2).stateOf)
    cases hfx : f s x with
    | cont s2 =>
      have h1 : P s s2 := by have := hstep s x; rwa [hfx] at this
      exact htrans _ _ _ h1 (ih s2)
    | halt o s2 =>
      have := hstep s x; rwa [hfx] at this

/-- Frame relation on merge states: the output only grows, and the
adopted location / output tree are untouched. -/
def mFrame (s t : MState) : Prop :=
  (∃ d, t.out = s.out ++ d) ∧ t.opfLoc = s.opfLoc ∧ t.baseOpf = s.baseOpf

theorem mFrame_refl (s : MState) : mFrame s s :=
  ⟨⟨[], by simp⟩, rfl, rfl⟩

theorem mFrame_trans (a b c : MState) (h1 : mFrame a b) (h2 : mFrame b c) :
    mFrame a c := by
  obtain ⟨⟨d1, hd1⟩, hl1, hb1⟩ := h1
  obtain ⟨⟨d2, hd2⟩, hl2, hb2⟩ := h2
  exact ⟨⟨d1 ++ d2, by rw [hd2, hd1, List.append_assoc]⟩,
    hl2.trans hl1, hb2.trans hb1⟩

theorem pme_frame (idx : Nat) (parent : String) (ar : Archive)
    (a : ArchState) (i : ManifestItem) :
    mFrame a.st ((processManifestEntry idx parent ar a i).stateOf).st := by
  unfold processManifestEntry
  dsimp only
  repeat' split
  all_goals
    first
      | exact ⟨⟨[], (List.append_nil _).symm⟩, rfl, rfl⟩
      | exact ⟨⟨_, rfl⟩, rfl, rfl⟩

theorem wb_frame (m : List (String × String)) :
    ∀ (pc : List (String × Content)) (st : MState),
    mFrame st ((writeBuffered pc m st).stateOf) := by
  intro pc
  induction pc with
  | nil => intro st; exact mFrame_refl _
  | cons p rest ih =>
    intro st
    obtain ⟨q, c⟩ := p
    show mFrame st ((match replace_all_hrefs c m with
      | Except.error e => LoopRes.halt (Outcome.raised e) st
      | Except.ok c1 =>
        match replace_all_src c1 m with
        | Except.error e => LoopRes.halt (Outcome.raised e) st
        | Except.ok c2 =>
          writeBuffered rest m { st with out := st.out ++ [(q, c2)] }).stateOf)
    cases replace_all_hrefs c m with
    | error e => exact mFrame_refl _
    | ok c1 =>
      dsimp only
      cases replace_all_src c1 m with
      | error e => exact mFrame_refl _
      | ok c2 =>
        dsimp only
        exact mFrame_trans st { st with out := st.out ++ [(q, c2)] } _
          ⟨⟨[(q, c2)], rfl⟩, rfl, rfl⟩ (ih _)

theorem pse_frame (idx : Nat) (st : MState) (i : SpineItem) :
    mFrame st ((processSpineEntry idx st i).stateOf) := by
  unfold processSpineEntry
  split
  · exact mFrame_refl _
  · exact ⟨⟨[], (List.append_nil _).symm⟩, rfl, rfl⟩

theorem openPhase_out (st : MState) (ar : Archive) :
    ∃ d, (openPhase st ar).out = st.out ++ d := by
  unfold openPhase
  split
  · exact ⟨_, rfl⟩
  · exact ⟨[], (List.append_nil _).symm⟩

theorem openPhase_opfLoc (st : MState) (ar : Archive) :
    (openPhase st ar).opfLoc ≠ none := by
  unfold openPhase
  split
  · simp
  · next h => exact h

theorem openPhase_baseOpf (st : MState) (ar : Archive) :
    (openPhase st ar).baseOpf = st.baseOpf := by
  unfold openPhase
  split <;> rfl

theorem adoptPhase_stateOf (st : MState) (ar : Archive) :
    ((adoptPhase st ar).stateOf).out = st.out ∧
    ((adoptPhase st ar).stateOf).opfLoc = st.opfLoc := by
  unfold adoptPhase
  repeat' split
  all_goals exact ⟨rfl, rfl⟩

theorem adoptPhase_cont (st : MState) (ar : Archive) (s2 : MState)
    (h : adoptPhase st ar = LoopRes.cont s2) :
    s2.baseOpf ≠ none ∧ s2.out = st.out ∧ s2.opfLoc = st.opfLoc := by
  unfold adoptPhase at h
  split at h
  · split at h
    · simp at h
    · split at h
      · simp at h
      · cases h
        exact ⟨by simp, rfl, rfl⟩
  · next hb =>
    cases h
    exact ⟨hb, rfl, rfl⟩

theorem foldLoop_nil {σ α : Type} (f : σ → α → LoopRes σ) (s : σ) :
    foldLoop f s [] = LoopRes.cont s := rfl

theorem foldLoop_cons {σ α : Type} (f : σ → α → LoopRes σ) (s : σ)
    (x : α) (xs : List α) :
    foldLoop f s (x :: xs) =
      match f s x with
      | LoopRes.cont s2 => foldLoop f s2 xs
      | LoopRes.halt o s2 => LoopRes.halt o s2 := rfl

/-- The manifest loop satisfies the merge-state frame. -/
theorem manifestFold_frame (idx : Nat) (parent : String) (ar : Archive)
    (items : List ManifestItem) (a : ArchState) :
    mFrame a.st
      ((foldLoop (processManifestEntry idx parent ar) a items).stateOf).st :=
  foldLoop_frame (fun x y => mFrame x.st y.st) _
    (fun _ => mFrame_refl _) (fun _ _ _ => mFrame_trans _ _ _)
    (fun s x => pme_frame idx parent ar s x) items a

/-- The spine loop satisfies the merge-state frame. -/
theorem spineFold_frame (idx : Nat) (sp : List SpineItem) (st : MState) :
    mFrame st ((foldLoop (processSpineEntry idx) st sp).stateOf) :=
  foldLoop_frame mFrame _ mFrame_refl (fun _ _ _ => mFrame_trans _ _ _)
    (fun s x => pse_frame idx s x) sp st

theorem outExt_trans {a b c : List (String × Content)}
    (h1 : ∃ d, b = a ++ d) (h2 : ∃ d, c = b ++ d) : ∃ d, c = a ++ d := by
  obtain ⟨d1, rfl⟩ := h1
  obtain ⟨d2, rfl⟩ := h2
  exact ⟨d1 ++ d2, List.append_assoc a d1 d2⟩

/-- One archive iteration only ever appends entries to the output. -/
theorem pa_out_ext (st : MState) (p : Nat × Archive) :
    ∃ d, ((processArchive st p).stateOf).out = st.out ++ d := by
  obtain ⟨idx, ar⟩ := p
  have h0 : ∃ d, (openPhase st ar).out = st.out ++ d := openPhase_out st ar
  unfold processArchive
  dsimp only
  cases hadopt : adoptPhase (openPhase st ar) ar with
  | halt o s =>
    have h := adoptPhase_stateOf (openPhase st ar) ar
    rw [hadopt] at h
    simp only [LoopRes.stateOf] at h ⊢
    rw [h.1]
    exact h0
  | cont st2 =>
    have h2 := adoptPhase_cont (openPhase st ar) ar st2 hadopt
    have hst2 : ∃ d, st2.out = st.out ++ d := by rw [h2.2.1]; exact h0
    dsimp only
    cases ar.opf.manifest with
    | none => exact hst2
    | some items =>
      dsimp only
      have hmf := manifestFold_frame idx (dirnamePy ar.opfPath) ar items
        { st := st2, updatedFiles := [], pathContents := [] }
      cases hfold : foldLoop (processManifestEntry idx (dirnamePy ar.opfPath) ar)
          { st := st2, updatedFiles := [], pathContents := [] } items with
      | halt o a =>
        rw [hfold] at hmf
        simp only [LoopRes.stateOf] at hmf ⊢
        exact outExt_trans hst2 hmf.1
      | cont a =>
        rw [hfold] at hmf
        simp only [LoopRes.stateOf] at hmf
        have ha : ∃ d, a.st.out = st.out ++ d := outExt_trans hst2 hmf.1
        dsimp only
        have hwb := wb_frame a.updatedFiles a.pathContents a.st
        cases hwbe : writeBuffered a.pathContents a.updatedFiles a.st with
        | halt o s3 =>
          rw [hwbe] at hwb
          simp only [LoopRes.stateOf] at hwb ⊢
          exact outExt_trans ha hwb.1
        | cont st3 =>
          rw [hwbe] at hwb
          simp only [LoopRes.stateOf] at hwb
          have h3 : ∃ d, st3.out = st.out ++ d := outExt_trans ha hwb.1
          dsimp only
          cases replace_all_src_element st3.tocRoot a.updatedFiles with
          | error e => exact h3
          | ok t2 =>
            dsimp only
            cases ar.opf.spine with
            | none => exact h3
            | some sp =>
              dsimp only
              have hsp := spineFold_frame idx sp { st3 with tocRoot := some t2 }
              exact outExt_trans h3 hsp.1

/-- C4: for every merge invocation, the first entry written to the
output archive is the mimetype marker at path "mimetype" with exact
payload "application/epub+zip", written before any other entry. -/
theorem claim_C4 (archives : List Archive) :
    ((epub_merge archives).out).head? =
      some (MIMETYPE_PATH, Content.bytes MIMETYPE_DATA) := by
  unfold epub_merge
  have hout : ∃ d,
      ((foldLoop processArchive initState (pyEnum 0 archives)).stateOf).out =
        initState.out ++ d :=
    foldLoop_frame (fun s t => ∃ d, t.out = s.out ++ d) processArchive
      (fun s => ⟨[], by simp⟩) (fun a b c h1 h2 => outExt_trans h1 h2)
      (fun s x => pa_out_ext s x) (pyEnum 0 archives) initState
  cases hres : foldLoop processArchive initState (pyEnum 0 archives) with
  | halt o s =>
    rw [hres] at hout
    simp only [LoopRes.stateOf] at hout
    obtain ⟨d, hd⟩ := hout
    dsimp only
    rw [hd]
    simp [initState]
  | cont s =>
    rw [hres] at hout
    simp only [LoopRes.stateOf] at hout
    obtain ⟨d, hd⟩ := hout
    dsimp only
    repeat' split
    all_goals simp [hd, initState]

/-! ## Characterization of the per-entry manifest processing -/

/-- Hypotheses under which one non-navigation manifest entry is
processed without failing: a usable id, and a readable file that is
XML whenever it will be buffered for rewriting. -/
def goodEntry (ar : Archive) (parent : String) (i : ManifestItem) : Prop :=
  i.mediaType ≠ some ncxMediaType ∧
  pyFalsy i.id = false ∧
  ∃ c, readFile ar (pathJoin parent i.href) = Except.ok c ∧
    (i.mediaType = some xhtmlMediaType → ∃ e, c = Content.xml e)

theorem pme_step_xhtml (idx : Nat) (parent : String) (ar : Archive)
    (a : ArchState) (i : ManifestItem) (c : Content)
    (hncx : i.mediaType ≠ some ncxMediaType)
    (hid : pyFalsy i.id = false)
    (hread : readFile ar (pathJoin parent i.href) = Except.ok c)
    (hx : i.mediaType = some xhtmlMediaType) :
    processManifestEntry idx parent ar a i = LoopRes.cont
      { a with
        updatedFiles := dictInsert a.updatedFiles i.href
          (add_prefix_to_file_path (toString idx ++ "_") i.href),
        pathContents := dictInsertC a.pathContents
          (pathJoin parent (add_prefix_to_file_path (toString idx ++ "_") i.href)) c,
        st := { a.st with outManifest := a.st.outManifest ++ [nsItem idx i] } } := by
  unfold processManifestEntry
  simp [hid, hncx, hread, hx, nsItem, ncxMediaType, xhtmlMediaType]

theorem pme_step_other (idx : Nat) (parent : String) (ar : Archive)
    (a : ArchState) (i : ManifestItem) (c : Content)
    (hncx : i.mediaType ≠ some ncxMediaType)
    (hid : pyFalsy i.id = false)
    (hread : readFile ar (pathJoin parent i.href) = Except.ok c)
    (hx : i.mediaType ≠ some xhtmlMediaType) :
    processManifestEntry idx parent ar a i = LoopRes.cont
      { a with
        updatedFiles := dictInsert a.updatedFiles i.href
          (add_prefix_to_file_path (toString idx ++ "_") i.href),
        st := { a.st with
          out := a.st.out ++
            [(pathJoin parent (add_prefix_to_file_path (toString idx ++ "_") i.href), c)],
          outManifest := a.st.outManifest ++ [nsItem idx i] } } := by
  unfold processManifestEntry
  simp [hid, hncx, hread, hx, nsItem]

theorem dictInsertC_mem (l : List (String × Content)) (k : String)
    (v : Content) (p : String × Content) (hp : p ∈ dictInsertC l k v) :
    p ∈ l ∨ p = (k, v) := by
  unfold dictInsertC at hp
  split at hp
  · obtain ⟨q, hq, hqe⟩ := List.mem_map.mp hp
    by_cases hk : q.1 == k
    · right
      rw [if_pos hk] at hqe
      exact hqe.symm
    · left
      rw [if_neg hk] at hqe
      exact hqe ▸ hq
  · rcases List.mem_append.mp hp with h | h
    · exact Or.inl h
    · right
      simpa using h

/-- Running the manifest loop over a list of well-formed non-navigation
entries continues, appends exactly the namespaced entries to the output
manifest, leaves the navigation/bookkeeping state alone, only appends
to the output zip, and buffers only XML bodies. -/
theorem foldManifest_good (idx : Nat) (parent : String) (ar : Archive) :
    ∀ (items : List ManifestItem) (a : ArchState),
    (∀ i ∈ items, goodEntry ar parent i) →
    ∃ a2, foldLoop (processManifestEntry idx parent ar) a items =
        LoopRes.cont a2 ∧
      a2.st.outManifest = a.st.outManifest ++ items.map (nsItem idx) ∧
      a2.st.opfLoc = a.st.opfLoc ∧
      a2.st.baseOpf = a.st.baseOpf ∧
      a2.st.outSpine = a.st.outSpine ∧
      a2.st.tocPath = a.st.tocPath ∧
      a2.st.tocRoot = a.st.tocRoot ∧
      (∃ d, a2.st.out = a.st.out ++ d) ∧
      (∀ p ∈ a2.pathContents, p ∈ a.pathContents ∨ ∃ e, p.2 = Content.xml e) := by
  intro items
  induction items with
  | nil =>
    intro a _
    exact ⟨a, rfl, by simp, rfl, rfl, rfl, rfl, rfl, ⟨[], by simp⟩,
      fun p hp => Or.inl hp⟩
  | cons i rest ih =>
    intro a hgood
    obtain ⟨hncx, hid, c, hread, hxml⟩ := hgood i (by simp)
    rw [foldLoop_cons]
    by_cases hx : i.mediaType = some xhtmlMediaType
    · rw [pme_step_xhtml idx parent ar a i c hncx hid hread hx]
      dsimp only
      obtain ⟨e, he⟩ := hxml hx
      subst he
      obtain ⟨a2, heq, hm, hl, hb, hsp2, htp, htr, ⟨d, hd⟩, hpc⟩ :=
        ih _ (fun j hj => hgood j (by simp [hj]))
      refine ⟨a2, heq, ?_, hl, hb, hsp2, htp, htr, ⟨d, hd⟩, ?_⟩
      · rw [hm]
        simp
      · intro p hp
        rcases hpc p hp with h | h
        · rcases dictInsertC_mem _ _ _ p h with h2 | h2
          · exact Or.inl h2
          · right
            exact ⟨e, by rw [h2]⟩
        · exact Or.inr h
    · rw [pme_step_other idx parent ar a i c hncx hid hread hx]
      dsimp only
      obtain ⟨a2, heq, hm, hl, hb, hsp2, htp, htr, ⟨d, hd⟩, hpc⟩ :=
        ih _ (fun j hj => hgood j (by simp [hj]))
      refine ⟨a2, heq, ?_, hl, hb, hsp2, htp, htr, ?_, hpc⟩
      · rw [hm]
        simp
      · exact ⟨[(pathJoin parent
            (add_prefix_to_file_path (toString idx ++ "_") i.href), c)] ++ d,
          by rw [hd]; simp⟩

/-- Net rewrite applied to a buffered body before it is written:
hrefs first, then srcs, with the same archive-scoped mapping. -/
def rewriteContent (m : List (String × String)) : Content → Content
  | Content.xml e => Content.xml (rewriteTree "src" m (rewriteTree "href" m e))
  | c => c

/-- When every buffered body is XML, the buffered-write loop continues
and appends exactly the rewritten bodies, in buffer order. -/
theorem writeBuffered_ok (m : List (String × String)) :
    ∀ (pc : List (String × Content)) (st : MState),
    (∀ p ∈ pc, ∃ e, p.2 = Content.xml e) →
    ∃ st2, writeBuffered pc m st = LoopRes.cont st2 ∧
      st2.out = st.out ++ pc.map (fun p => (p.1, rewriteContent m p.2)) ∧
      st2.opfLoc = st.opfLoc ∧ st2.baseOpf = st.baseOpf ∧
      st2.outManifest = st.outManifest ∧ st2.outSpine = st.outSpine ∧
      st2.tocPath = st.tocPath ∧ st2.tocRoot = st.tocRoot := by
  intro pc
  induction pc with
  | nil =>
    intro st _
    exact ⟨st, rfl, by simp, rfl, rfl, rfl, rfl, rfl, rfl⟩
  | cons p rest ih =>
    intro st hall
    obtain ⟨e, he⟩ := hall p (by simp)
    obtain ⟨q, c⟩ := p
    dsimp only at he
    subst he
    obtain ⟨st2, heq, hout, hl, hb, hm, hsp, htp, htr⟩ :=
      ih { st with out :=
          st.out ++ [(q, Content.xml (rewriteTree "src" m (rewriteTree "href" m e)))] }
        (fun j hj => hall j (by simp [hj]))
    refine ⟨st2, ?_, ?_, hl, hb, hm, hsp, htp, htr⟩
    · exact heq
    · rw [hout]
      simp [rewriteContent]

/-- On the first archive, the opening phase adopts the output location
and copies the container descriptor. -/
theorem openPhase_init (ar : Archive) :
    openPhase initState ar =
      { out := [(MIMETYPE_PATH, Content.bytes MIMETYPE_DATA),
                (CONTAINER_XML_PATH, Content.bytes ar.containerXml)],
        opfLoc := some ar.opfPath, baseOpf := none, outManifest := [],
        outSpine := [], tocPath := none, tocRoot := none } := rfl

/-- On subsequent archives, the opening phase does nothing. -/
theorem openPhase_skip (st : MState) (ar : Archive) (h : st.opfLoc ≠ none) :
    openPhase st ar = st := by
  unfold openPhase
  rw [if_neg h]

/-- When manifest and spine are present (or the tree is already
adopted), the adoption phase continues, only possibly setting the
output tree. -/
theorem adoptPhase_ok (st1 : MState) (ar : Archive)
    (hman : ar.opf.manifest ≠ none) (hsp : ar.opf.spine ≠ none) :
    ∃ b, adoptPhase st1 ar = LoopRes.cont { st1 with baseOpf := some b } := by
  unfold adoptPhase
  split
  · cases hm : ar.opf.manifest with
    | none => exact absurd hm hman
    | some items =>
      dsimp only
      cases hs : ar.opf.spine with
      | none => exact absurd hs hsp
      | some sp => exact ⟨ar.opf, rfl⟩
  · next hb =>
    cases hbb : st1.baseOpf with
    | none => exact absurd hbb hb
    | some b => exact ⟨b, by rw [← hbb]⟩

/-- C9: for every merge whose first-processed archive contains no
manifest entry of media type application/x-dtbncx+xml, epub_merge
raises an uncaught error during that archive's iteration — the
per-archive navigation-target rewrite is invoked on the still-absent
adopted navigation root — rather than completing with the navigation
document simply omitted. -/
theorem claim_C9 (a0 : Archive) (rest : List Archive)
    (items : List ManifestItem) (sp : List SpineItem)
    (hman : a0.opf.manifest = some items)
    (hsp : a0.opf.spine = some sp)
    (hgood : ∀ i ∈ items, goodEntry a0 (dirnamePy a0.opfPath) i) :
    (epub_merge (a0 :: rest)).outcome =
      Outcome.raised PyError.attributeError := by
  unfold epub_merge
  rw [show pyEnum 0 (a0 :: rest) = (0, a0) :: pyEnum 1 rest from rfl]
  rw [foldLoop_cons]
  unfold processArchive
  dsimp only
  rw [openPhase_init a0]
  obtain ⟨b, hb⟩ := adoptPhase_ok _ a0 (by rw [hman]; simp) (by rw [hsp]; simp)
  rw [hb]
  dsimp only
  rw [hman]
  dsimp only
  obtain ⟨a2, heq, hm, hl, hbo, hsp2, htp, htr, hout, hpc⟩ :=
    foldManifest_good 0 (dirnamePy a0.opfPath) a0 items
      { st := { out := [(MIMETYPE_PATH, Content.bytes MIMETYPE_DATA),
                        (CONTAINER_XML_PATH, Content.bytes a0.containerXml)],
                opfLoc := some a0.opfPath, baseOpf := some b,
                outManifest := [], outSpine := [], tocPath := none,
                tocRoot := none },
        updatedFiles := [], pathContents := [] } hgood
  rw [heq]
  dsimp only
  obtain ⟨st3, hwb, hwout, hwl, hwbo, hwm, hws, hwtp, hwtr⟩ :=
    writeBuffered_ok a2.updatedFiles a2.pathContents a2.st
      (fun p hp => (hpc p hp).resolve_left (by simp))
  rw [hwb]
  dsimp only
  have htoc3 : st3.tocRoot = none := by rw [hwtr, htr]
  rw [htoc3]
  rfl

/-- C5: for every well-formed document and every rename mapping whose
keys match none of the document's href or src attribute values,
replace_all_hrefs followed by replace_all_src leaves the document —
in particular every href and src attribute value, those on the root
element included — unchanged. -/
theorem claim_C5 (e : Element) (m : List (String × String))
    (hh : ∀ v ∈ collectAttr "href" e, alistLookup m v = none)
    (hs : ∀ v ∈ collectAttr "src" e, alistLookup m v = none) :
    (replace_all_hrefs (Content.xml e) m >>= fun c => replace_all_src c m) =
      Except.ok (Content.xml e) := by
  show Except.ok (Content.xml (rewriteTree "src" m (rewriteTree "href" m e))) =
    Except.ok (Content.xml e)
  rw [rewriteTree_id "href" m e hh, rewriteTree_id "src" m e hs]

/-- Concrete document exercising claim_C5: an href on the root and a
src on a child, with a disjoint rename mapping. -/
def w5Elem : Element :=
  Element.mk "html" [("href", "a.xhtml")]
    (ElemList.cons (Element.mk "img" [("src", "b.png")] ElemList.nil)
      ElemList.nil)

theorem claim_C5_witness :
    (replace_all_hrefs (Content.xml w5Elem) [("x.xhtml", "0_x.xhtml")] >>=
      fun c => replace_all_src c [("x.xhtml", "0_x.xhtml")]) =
      Except.ok (Content.xml w5Elem) :=
  claim_C5 w5Elem [("x.xhtml", "0_x.xhtml")] (by decide) (by decide)

/-- Concrete first archive (one XHTML chapter, no NCX entry)
exercising claim_C9. -/
def w9Arch : Archive :=
  { containerXml := "c", opfPath := "content.opf",
    opf := { manifest := some [ManifestItem.mk (some "a") "ch.xhtml"
               (some xhtmlMediaType)],
             spine := some [], metadata := none },
    files := [("ch.xhtml", Content.xml (Element.mk "html" [] ElemList.nil))] }

theorem claim_C9_witness :
    (epub_merge [w9Arch]).outcome = Outcome.raised PyError.attributeError :=
  claim_C9 w9Arch [] _ _ rfl rfl (by
    intro i hi
    simp only [List.mem_singleton] at hi
    subst hi
    exact ⟨by decide, by decide,
      Content.xml (Element.mk "html" [] ElemList.nil), rfl,
      fun _ => ⟨Element.mk "html" [] ElemList.nil, rfl⟩⟩)

/-- A successful archive iteration leaves the adopted output location
and output tree set. -/
theorem pa_cont_inv (st : MState) (p : Nat × Archive) (s2 : MState)
    (h : processArchive st p = LoopRes.cont s2) :
    s2.opfLoc ≠ none ∧ s2.baseOpf ≠ none := by
  obtain ⟨idx, ar⟩ := p
  unfold processArchive at h
  dsimp only at h
  have h1 : (openPhase st ar).opfLoc ≠ none := openPhase_opfLoc st ar
  cases hadopt : adoptPhase (openPhase st ar) ar with
  | halt o s => rw [hadopt] at h; simp at h
  | cont st2 =>
    rw [hadopt] at h
    dsimp only at h
    have h2 := adoptPhase_cont (openPhase st ar) ar st2 hadopt
    cases hman : ar.opf.manifest with
    | none => rw [hman] at h; simp at h
    | some items =>
      rw [hman] at h
      dsimp only at h
      have hmf := manifestFold_frame idx (dirnamePy ar.opfPath) ar items
        ⟨st2, [], []⟩
      cases hfold : foldLoop (processManifestEntry idx (dirnamePy ar.opfPath) ar)
          ⟨st2, [], []⟩ items with
      | halt o a => rw [hfold] at h; simp at h
      | cont a =>
        rw [hfold] at hmf h
        simp only [LoopRes.stateOf] at hmf
        dsimp only at h
        have hwb := wb_frame a.updatedFiles a.pathContents a.st
        cases hwbe : writeBuffered a.pathContents a.updatedFiles a.st with
        | halt o s3 => rw [hwbe] at h; simp at h
        | cont st3 =>
          rw [hwbe] at hwb h
          simp only [LoopRes.stateOf] at hwb
          dsimp only at h
          cases hrse : replace_all_src_element st3.tocRoot a.updatedFiles with
          | error e => rw [hrse] at h; simp at h
          | ok t2 =>
            rw [hrse] at h
            dsimp only at h
            cases hspm : ar.opf.spine with
            | none => rw [hspm] at h; simp at h
            | some sp =>
              rw [hspm] at h
              dsimp only at h
              have hsf := spineFold_frame idx sp { st3 with tocRoot := some t2 }
              rw [h] at hsf
              simp only [LoopRes.stateOf] at hsf
              constructor
              · rw [hsf.2.1]
                dsimp only
                rw [hwb.2.1]
                rw [hmf.2.1, h2.2.2]
                exact h1
              · rw [hsf.2.2]
                dsimp only
                rw [hwb.2.2]
                rw [hmf.2.2]
                exact h2.1

/-- C10: the presence check for manifest and spine (clean failure by
returning False) is performed only for the first-processed archive;
for every subsequent archive whose package document lacks a manifest
or spine element, epub_merge raises an uncaught error (iterating a
missing find result) instead of the documented clean failure.  Parts:
(1) first archive without manifest → returns False; (2) first archive
without spine → returns False; (3) later archive without manifest →
uncaught TypeError; (4) later archive without spine → uncaught
TypeError (once its empty manifest loop and the navigation rewrite
have passed). -/
theorem claim_C10 :
    (∀ (a0 : Archive) (rest : List Archive),
      a0.opf.manifest = none →
      (epub_merge (a0 :: rest)).outcome = Outcome.failed) ∧
    (∀ (a0 : Archive) (rest : List Archive) (items : List ManifestItem),
      a0.opf.manifest = some items → a0.opf.spine = none →
      (epub_merge (a0 :: rest)).outcome = Outcome.failed) ∧
    (∀ (a0 a1 : Archive) (rest : List Archive) (s : MState),
      processArchive initState (0, a0) = LoopRes.cont s →
      a1.opf.manifest = none →
      (epub_merge (a0 :: a1 :: rest)).outcome =
        Outcome.raised PyError.typeError) ∧
    (∀ (a0 a1 : Archive) (rest : List Archive) (s : MState) (t : TocRoot),
      processArchive initState (0, a0) = LoopRes.cont s →
      s.tocRoot = some t →
      a1.opf.manifest = some [] → a1.opf.spine = none →
      (epub_merge (a0 :: a1 :: rest)).outcome =
        Outcome.raised PyError.typeError) := by
  refine ⟨?_, ?_, ?_, ?_⟩
  · intro a0 rest hman
    unfold epub_merge
    rw [show pyEnum 0 (a0 :: rest) = (0, a0) :: pyEnum 1 rest from rfl,
      foldLoop_cons]
    unfold processArchive
    dsimp only
    rw [openPhase_init a0]
    unfold adoptPhase
    rw [hman]
    rfl
  · intro a0 rest items hman hsp
    unfold epub_merge
    rw [show pyEnum 0 (a0 :: rest) = (0, a0) :: pyEnum 1 rest from rfl,
      foldLoop_cons]
    unfold processArchive
    dsimp only
    rw [openPhase_init a0]
    unfold adoptPhase
    rw [hman, hsp]
    rfl
  · intro a0 a1 rest s hpa hman1
    have hinv := pa_cont_inv initState (0, a0) s hpa
    unfold epub_merge
    rw [show pyEnum 0 (a0 :: a1 :: rest) =
      (0, a0) :: (1, a1) :: pyEnum 2 rest from rfl]
    rw [foldLoop_cons, hpa]
    dsimp only
    rw [foldLoop_cons]
    unfold processArchive
    dsimp only
    rw [openPhase_skip s a1 hinv.1]
    obtain ⟨b, hbb⟩ : ∃ b, s.baseOpf = some b := by
      cases hx : s.baseOpf with
      | none => exact absurd hx hinv.2
      | some b => exact ⟨b, rfl⟩
    unfold adoptPhase
    rw [if_neg (by rw [hbb]; simp)]
    dsimp only
    rw [hman1]
  · intro a0 a1 rest s t hpa htoc hman1 hsp1
    have hinv := pa_cont_inv initState (0, a0) s hpa
    unfold epub_merge
    rw [show pyEnum 0 (a0 :: a1 :: rest) =
      (0, a0) :: (1, a1) :: pyEnum 2 rest from rfl]
    rw [foldLoop_cons, hpa]
    dsimp only
    rw [foldLoop_cons]
    unfold processArchive
    dsimp only
    rw [openPhase_skip s a1 hinv.1]
    obtain ⟨b, hbb⟩ : ∃ b, s.baseOpf = some b := by
      cases hx : s.baseOpf with
      | none => exact absurd hx hinv.2
      | some b => exact ⟨b, rfl⟩
    unfold adoptPhase
    rw [if_neg (by rw [hbb]; simp)]
    dsimp only
    rw [hman1]
    dsimp only [foldLoop, writeBuffered]
    rw [htoc]
    dsimp only [replace_all_src_element]
    rw [hsp1]

/-- Concrete first archive with a navigation document, for the
claim_C10 witness. -/
def w10A : Archive :=
  { containerXml := "c", opfPath := "content.opf",
    opf := { manifest := some [ManifestItem.mk (some "ncx") "toc.ncx"
               (some ncxMediaType)],
             spine := some [], metadata := none },
    files := [("toc.ncx", Content.toc (TocRoot.mk [] (some [])))] }

/-- Later archive whose package document has no manifest element. -/
def w10BadMan : Archive :=
  { containerXml := "c2", opfPath := "content.opf",
    opf := { manifest := none, spine := some [], metadata := none },
    files := [] }

/-- Later archive whose package document has no spine element. -/
def w10BadSp : Archive :=
  { containerXml := "c3", opfPath := "content.opf",
    opf := { manifest := some [], spine := none, metadata := none },
    files := [] }

/-- State after the first archive of the claim_C10 witness. -/
def w10S : MState :=
  { out := [(MIMETYPE_PATH, Content.bytes MIMETYPE_DATA),
            (CONTAINER_XML_PATH, Content.bytes "c")],
    opfLoc := some "content.opf",
    baseOpf := some w10A.opf,
    outManifest := [ManifestItem.mk (some "ncx") "toc.ncx" (some ncxMediaType)],
    outSpine := [],
    tocPath := some "toc.ncx",
    tocRoot := some (TocRoot.mk [] (some [])) }

theorem claim_C10_witness :
    (epub_merge [w10BadMan]).outcome = Outcome.failed ∧
    (epub_merge [w10BadSp]).outcome = Outcome.failed ∧
    (epub_merge [w10A, w10BadMan]).outcome =
      Outcome.raised PyError.typeError ∧
    (epub_merge [w10A, w10BadSp]).outcome =
      Outcome.raised PyError.typeError :=
  ⟨claim_C10.1 w10BadMan [] rfl,
   claim_C10.2.1 w10BadSp [] [] rfl rfl,
   claim_C10.2.2.1 w10A w10BadMan [] w10S rfl rfl,
   claim_C10.2.2.2 w10A w10BadSp [] w10S (TocRoot.mk [] (some []))
     rfl rfl rfl rfl⟩

/-- An input archive whose manifest consists of exactly its navigation
document, whose navMap carries the given points (claim_C2). -/
def navOnlyArchive (cx : String) (pts : List NavPoint) : Archive :=
  { containerXml := cx, opfPath := "content.opf",
    opf := { manifest := some [ManifestItem.mk (some "ncx") "toc.ncx"
               (some ncxMediaType)],
             spine := some [], metadata := none },
    files := [("toc.ncx", Content.toc (TocRoot.mk [] (some pts)))] }

/-- C2: merging archive A contributing navigation points with playOrder
{1,2} and archive B contributing points with playOrder {1,2,3} yields a
merged navigation map of exactly 5 points with playOrder {1,2,3,4,5},
each archive's points in their original relative order, B's offset by
the number of points already adopted. -/
theorem claim_C2 (a1 a2 b1 b2 b3 : NavPoint)
    (h1 : a1.playOrder = 1) (h2 : a2.playOrder = 2)
    (h3 : b1.playOrder = 1) (h4 : b2.playOrder = 2) (h5 : b3.playOrder = 3) :
    (epub_merge [navOnlyArchive "cA" [a1, a2],
                 navOnlyArchive "cB" [b1, b2, b3]]).outcome = Outcome.ok ∧
    ((epub_merge [navOnlyArchive "cA" [a1, a2],
                  navOnlyArchive "cB" [b1, b2, b3]]).out).getLast? =
      some ("toc.ncx", Content.toc (TocRoot.mk []
        (some [a1, a2,
               { b1 with playOrder := 3 },
               { b2 with playOrder := 4 },
               { b3 with playOrder := 5 }]))) ∧
    List.map NavPoint.playOrder
        [a1, a2, { b1 with playOrder := 3 }, { b2 with playOrder := 4 },
         { b3 with playOrder := 5 }] = [1, 2, 3, 4, 5] := by
  obtain ⟨la1, sa1, pa1⟩ := a1
  obtain ⟨la2, sa2, pa2⟩ := a2
  obtain ⟨lb1, sb1, pb1⟩ := b1
  obtain ⟨lb2, sb2, pb2⟩ := b2
  obtain ⟨lb3, sb3, pb3⟩ := b3
  dsimp only at h1 h2 h3 h4 h5
  subst h1 h2 h3 h4 h5
  exact ⟨rfl, rfl, rfl⟩

theorem claim_C2_witness :
    (epub_merge [navOnlyArchive "cA"
        [NavPoint.mk "A1" "u1" 1, NavPoint.mk "A2" "u2" 2],
      navOnlyArchive "cB"
        [NavPoint.mk "B1" "v1" 1, NavPoint.mk "B2" "v2" 2,
         NavPoint.mk "B3" "v3" 3]]).outcome = Outcome.ok ∧
    ((epub_merge [navOnlyArchive "cA"
        [NavPoint.mk "A1" "u1" 1, NavPoint.mk "A2" "u2" 2],
      navOnlyArchive "cB"
        [NavPoint.mk "B1" "v1" 1, NavPoint.mk "B2" "v2" 2,
         NavPoint.mk "B3" "v3" 3]]).out).getLast? =
      some ("toc.ncx", Content.toc (TocRoot.mk []
        (some [NavPoint.mk "A1" "u1" 1, NavPoint.mk "A2" "u2" 2,
               NavPoint.mk "B1" "v1" 3, NavPoint.mk "B2" "v2" 4,
               NavPoint.mk "B3" "v3" 5]))) ∧
    List.map NavPoint.playOrder
        [NavPoint.mk "A1" "u1" 1, NavPoint.mk "A2" "u2" 2,
         NavPoint.mk "B1" "v1" 3, NavPoint.mk "B2" "v2" 4,
         NavPoint.mk "B3" "v3" 5] = [1, 2, 3, 4, 5] :=
  claim_C2 (NavPoint.mk "A1" "u1" 1) (NavPoint.mk "A2" "u2" 2)
    (NavPoint.mk "B1" "v1" 1) (NavPoint.mk "B2" "v2" 2)
    (NavPoint.mk "B3" "v3" 3) rfl rfl rfl rfl rfl

/-- The package documents among a list of output entries. -/
def opfEntries (out : List (String × Content)) : List OpfDoc :=
  out.filterMap (fun e => match e.2 with
    | Content.opf d => some d
    | _ => none)

/-- Archive whose navigation entry id collides with the namespaced id
of another entry ("0_a" vs prefix "0_" + "a"), refuting claim C3. -/
def c3Arch : Archive :=
  { containerXml := "c", opfPath := "content.opf",
    opf := { manifest := some [
               ManifestItem.mk (some "0_a") "toc.ncx" (some ncxMediaType),
               ManifestItem.mk (some "a") "ch.xhtml" (some xhtmlMediaType)],
             spine := some [], metadata := none },
    files := [("toc.ncx", Content.toc (TocRoot.mk [] (some []))),
              ("ch.xhtml", Content.xml (Element.mk "html" [] ElemList.nil))] }

/-- C3 counterexample: a successful merge of an archive with unique
per-archive manifest ids ("0_a" and "a") whose output manifest carries
the duplicate ids ["0_a", "0_a"] — the navigation entry keeps its
original id, which collides with a namespaced id. -/
theorem claim_C3_counterexample :
    (epub_merge [c3Arch]).outcome = Outcome.ok ∧
    ((c3Arch.opf.manifest.getD []).map ManifestItem.id).Nodup ∧
    (opfEntries (epub_merge [c3Arch]).out).map
        (fun d => (d.manifest.getD []).map ManifestItem.id) =
      [[some "0_a", some "0_a"]] ∧
    ¬ ([some "0_a", some "0_a"] : List (Option String)).Nodup :=
  ⟨rfl, by decide, rfl, by decide⟩

theorem string_append_left_cancel (p : String) :
    Function.Injective (fun s => p ++ s) := by
  intro a b h
  have hd : (p ++ a).data = (p ++ b).data := by
    simp only at h
    rw [h]
  rw [String.data_append, String.data_append] at hd
  have h2 := List.append_cancel_left hd
  cases a
  cases b
  exact congrArg String.mk h2

/-- Step lemma: the first navigation entry is adopted unchanged. -/
theorem pme_step_ncx_adopt (idx : Nat) (parent : String) (ar : Archive)
    (a : ArchState) (i : ManifestItem) (t : TocRoot)
    (hid : pyFalsy i.id = false)
    (hncx : i.mediaType = some ncxMediaType)
    (htocnone : a.st.tocRoot = none)
    (htoc : get_toc_ncx ar (pathJoin parent i.href) = Except.ok t) :
    processManifestEntry idx parent ar a i = LoopRes.cont
      { a with st := { a.st with
        outManifest := a.st.outManifest ++ [i],
        tocPath := some (pathJoin parent i.href),
        tocRoot := some t } } := by
  unfold processManifestEntry
  simp [hid, hncx, htocnone, htoc]

/-- Evaluated adoption phase for a first archive with manifest and
spine present. -/
theorem adoptPhase_concrete (st1 : MState) (ar : Archive)
    (items : List ManifestItem) (sp : List SpineItem)
    (hb : st1.baseOpf = none) (hman : ar.opf.manifest = some items)
    (hsp : ar.opf.spine = some sp) :
    adoptPhase st1 ar = LoopRes.cont { st1 with baseOpf := some ar.opf } := by
  unfold adoptPhase
  rw [if_pos hb, hman, hsp]

/-! ## Decimal representations: the strings produced by str(index) are
made of digit characters only, and distinct indices produce distinct
strings.  Needed for the cross-archive distinctness of the namespaced
ids "{archive_index}_{id}". -/

theorem digitChar_ne_underscore (m : Nat) (h : m < 10) :
    Nat.digitChar m ≠ '_' := by
  interval_cases m <;> decide

theorem digitChar_toNat (m : Nat) (h : m < 10) :
    (Nat.digitChar m).toNat - 48 = m := by
  interval_cases m <;> decide

theorem toDigitsCore_eq (f n : Nat) (ds : List Char) :
    Nat.toDigitsCore 10 (f + 1) n ds =
      if n / 10 = 0 then Nat.digitChar (n % 10) :: ds
      else Nat.toDigitsCore 10 f (n / 10) (Nat.digitChar (n % 10) :: ds) :=
  rfl

theorem toDigitsCore_append (f : Nat) : ∀ (n : Nat) (ds : List Char),
    Nat.toDigitsCore 10 f n ds = Nat.toDigitsCore 10 f n [] ++ ds := by
  induction f with
  | zero => intro n ds; rfl
  | succ f ih =>
    intro n ds
    rw [toDigitsCore_eq, toDigitsCore_eq]
    by_cases h : n / 10 = 0
    · rw [if_pos h, if_pos h]
      rfl
    · rw [if_neg h, if_neg h, ih (n / 10) (Nat.digitChar (n % 10) :: ds),
        ih (n / 10) [Nat.digitChar (n % 10)], List.append_assoc]
      rfl

theorem toDigitsCore_ne_underscore (f : Nat) :
    ∀ (n : Nat) (ds : List Char), (∀ c ∈ ds, c ≠ '_') →
    ∀ c ∈ Nat.toDigitsCore 10 f n ds, c ≠ '_' := by
  induction f with
  | zero => intro n ds hds; exact hds
  | succ f ih =>
    intro n ds hds c hc
    rw [toDigitsCore_eq] at hc
    by_cases h : n / 10 = 0
    · rw [if_pos h] at hc
      rcases List.mem_cons.mp hc with h2 | h2
      · rw [h2]
        exact digitChar_ne_underscore _ (Nat.mod_lt _ (by decide))
      · exact hds c h2
    · rw [if_neg h] at hc
      refine ih (n / 10) _ ?_ c hc
      intro c2 hc2
      rcases List.mem_cons.mp hc2 with h2 | h2
      · rw [h2]
        exact digitChar_ne_underscore _ (Nat.mod_lt _ (by decide))
      · exact hds c2 h2

theorem toDigitsCore_foldl (f : Nat) : ∀ (n : Nat), n < f → ∀ (a : Nat),
    List.foldl (fun acc c => acc * 10 + (c.toNat - 48)) a
        (Nat.toDigitsCore 10 f n []) =
      a * 10 ^ (Nat.toDigitsCore 10 f n []).length + n := by
  induction f with
  | zero => intro n hn; omega
  | succ f ih =>
    intro n hn a
    rw [toDigitsCore_eq]
    by_cases h : n / 10 = 0
    · rw [if_pos h]
      have hlt : n < 10 := by omega
      simp only [List.foldl_cons, List.foldl_nil, List.length_cons,
        List.length_nil, pow_one, zero_add]
      rw [digitChar_toNat _ (Nat.mod_lt _ (by decide)),
        Nat.mod_eq_of_lt hlt]
    · rw [if_neg h]
      rw [toDigitsCore_append f (n / 10) [Nat.digitChar (n % 10)]]
      have hdiv : n / 10 < f := by
        have h1 : n / 10 < n := Nat.div_lt_self (by omega) (by decide)
        omega
      rw [List.foldl_append]
      simp only [List.foldl_cons, List.foldl_nil]
      rw [ih (n / 10) hdiv a,
        digitChar_toNat _ (Nat.mod_lt _ (by decide))]
      rw [List.length_append, List.length_cons, List.length_nil]
      have hmod := Nat.div_add_mod n 10
      have hpow : (10:Nat) ^ ((Nat.toDigitsCore 10 f (n / 10) []).length + 1)
          = 10 ^ (Nat.toDigitsCore 10 f (n / 10) []).length * 10 := by
        rw [pow_succ]
      rw [hpow]
      ring_nf
      omega

/-- `str(m) == str(n)` only when `m == n`. -/
theorem natReprData_inj (m n : Nat)
    (h : (Nat.repr m).data = (Nat.repr n).data) : m = n := by
  have hd : Nat.toDigitsCore 10 (m + 1) m [] =
      Nat.toDigitsCore 10 (n + 1) n [] := h
  have h1 := toDigitsCore_foldl (m + 1) m (by omega) 0
  have h2 := toDigitsCore_foldl (n + 1) n (by omega) 0
  rw [hd] at h1
  rw [h1] at h2
  omega

/-- No decimal representation contains the underscore separator. -/
theorem natRepr_ne_underscore (n : Nat) :
    ∀ c ∈ (Nat.repr n).data, c ≠ '_' := by
  intro c hc
  exact toDigitsCore_ne_underscore (n + 1) n []
    (by intro c2 hc2; cases hc2) c hc

/-- Splitting at the first underscore is unambiguous when neither left
part contains one. -/
theorem sepChars_inj : ∀ (a : List Char), (∀ c ∈ a, c ≠ '_') →
    ∀ (b : List Char), (∀ c ∈ b, c ≠ '_') →
    ∀ (s t : List Char), a ++ '_' :: s = b ++ '_' :: t →
    a = b ∧ s = t := by
  intro a
  induction a with
  | nil =>
    intro _ b hb s t h
    cases b with
    | nil =>
      rw [List.nil_append, List.nil_append] at h
      injection h with h1 h2
      exact ⟨rfl, h2⟩
    | cons x xs =>
      rw [List.nil_append, List.cons_append] at h
      injection h with h1 h2
      exact absurd h1.symm (hb x (List.mem_cons_self x xs))
  | cons y ys ih =>
    intro ha b hb s t h
    cases b with
    | nil =>
      rw [List.cons_append, List.nil_append] at h
      injection h with h1 h2
      exact absurd h1 (ha y (List.mem_cons_self y ys))
    | cons x xs =>
      rw [List.cons_append, List.cons_append] at h
      injection h with h1 h2
      obtain ⟨hx, hst⟩ := ih (fun c hc => ha c (List.mem_cons_of_mem y hc))
        xs (fun c hc => hb c (List.mem_cons_of_mem x hc)) s t h2
      exact ⟨by rw [h1, hx], hst⟩

/-- The namespaced form `str(index) ++ "_" ++ rest` determines both the
index and the rest: the decimal prefix cannot absorb or release the
first underscore. -/
theorem nsId_inj (i j : Nat) (s t : String)
    (h : toString i ++ "_" ++ s = toString j ++ "_" ++ t) :
    i = j ∧ s = t := by
  have hd := congrArg String.data h
  rw [String.data_append, String.data_append, String.data_append,
    String.data_append] at hd
  rw [show ("_" : String).data = ['_'] from rfl] at hd
  rw [List.append_assoc, List.append_assoc, List.singleton_append,
    List.singleton_append] at hd
  obtain ⟨h1, h2⟩ := sepChars_inj (toString i).data (natRepr_ne_underscore i)
    (toString j).data (natRepr_ne_underscore j) s.data t.data hd
  refine ⟨natReprData_inj i j h1, ?_⟩
  cases s
  cases t
  exact congrArg String.mk h2
/-! ## The manifest entries accumulated by a successful merge -/

/-- What one archive's manifest loop appends to the combined manifest
when it completes without halting: with no navigation document adopted
yet (`b = true`) the first entry of the NCX media type is kept as is,
later ones are dropped (merged into the adopted map), and every other
entry is namespaced with the archive index. -/
def processedItems (idx : Nat) : Bool → List ManifestItem → List ManifestItem
  | _, [] => []
  | b, i :: rest =>
    if i.mediaType = some ncxMediaType then
      if b then i :: processedItems idx false rest
      else processedItems idx false rest
    else nsItem idx i :: processedItems idx b rest

/-- The combined manifest a successful merge builds from the archive
list, starting at archive index `k`: after the first archive completes
a navigation document has necessarily been adopted, so every later
archive contributes with `b = false`. -/
def mergedManifest : Nat → Bool → List Archive → List ManifestItem
  | _, _, [] => []
  | k, b, ar :: rest =>
    processedItems k b (ar.opf.manifest.getD []) ++
      mergedManifest (k + 1) false rest

/-- The navigation entry a merge adopts from an archive scanned before
any adoption: its first manifest item of the NCX media type. -/
def firstNavEntry (items : List ManifestItem) : Option ManifestItem :=
  items.find? (fun i => i.mediaType == some ncxMediaType)

theorem processedItems_cons (idx : Nat) (b : Bool) (i : ManifestItem)
    (rest : List ManifestItem) :
    processedItems idx b (i :: rest) =
      if i.mediaType = some ncxMediaType then
        if b then i :: processedItems idx false rest
        else processedItems idx false rest
      else nsItem idx i :: processedItems idx b rest :=
  rfl

theorem processedItems_cons_ncx_true (idx : Nat) (i : ManifestItem)
    (rest : List ManifestItem) (h : i.mediaType = some ncxMediaType) :
    processedItems idx true (i :: rest) =
      i :: processedItems idx false rest := by
  rw [processedItems_cons, if_pos h, if_pos rfl]

theorem processedItems_cons_ncx_false (idx : Nat) (i : ManifestItem)
    (rest : List ManifestItem) (h : i.mediaType = some ncxMediaType) :
    processedItems idx false (i :: rest) = processedItems idx false rest := by
  rw [processedItems_cons, if_pos h, if_neg (by decide : ¬ false = true)]

theorem processedItems_cons_other (idx : Nat) (b : Bool) (i : ManifestItem)
    (rest : List ManifestItem) (h : ¬ i.mediaType = some ncxMediaType) :
    processedItems idx b (i :: rest) =
      nsItem idx i :: processedItems idx b rest := by
  rw [processedItems_cons, if_neg h]

theorem firstNavEntry_cons_pos (i : ManifestItem) (rest : List ManifestItem)
    (h : i.mediaType = some ncxMediaType) :
    firstNavEntry (i :: rest) = some i :=
  List.find?_cons_of_pos rest (by simp [h])

theorem firstNavEntry_cons_neg (i : ManifestItem) (rest : List ManifestItem)
    (h : ¬ i.mediaType = some ncxMediaType) :
    firstNavEntry (i :: rest) = firstNavEntry rest :=
  List.find?_cons_of_neg rest (by simp [h])

/-- Inversion of one non-halting manifest-loop step: the entry's id is
non-empty, and the combined manifest and adopted-toc fields move
exactly as `processedItems` describes. -/
theorem pme_cont_inv (idx : Nat) (parent : String) (ar : Archive)
    (a a1 : ArchState) (i : ManifestItem)
    (h : processManifestEntry idx parent ar a i = LoopRes.cont a1) :
    pyFalsy i.id = false ∧
    ((i.mediaType = some ncxMediaType ∧
       ((a.st.tocRoot = none ∧
          a1.st.outManifest = a.st.outManifest ++ [i] ∧
          a1.st.tocRoot.isNone = false) ∨
        (a.st.tocRoot.isNone = false ∧
          a1.st.outManifest = a.st.outManifest ∧
          a1.st.tocRoot.isNone = false))) ∨
     (¬ i.mediaType = some ncxMediaType ∧
       a1.st.outManifest = a.st.outManifest ++ [nsItem idx i] ∧
       a1.st.tocRoot = a.st.tocRoot)) := by
  unfold processManifestEntry at h
  by_cases hid : pyFalsy i.id = true
  · rw [if_pos hid] at h
    simp at h
  · rw [if_neg hid] at h
    dsimp only at h
    refine ⟨by simpa using hid, ?_⟩
    by_cases hm : i.mediaType = some ncxMediaType
    · rw [if_pos hm] at h
      cases htoc : a.st.tocRoot with
      | none =>
        rw [htoc] at h
        cases hg : get_toc_ncx ar (pathJoin parent i.href) with
        | error e => rw [hg] at h; simp at h
        | ok t =>
          rw [hg] at h
          injection h with h2
          subst h2
          exact Or.inl ⟨hm, Or.inl ⟨rfl, rfl, rfl⟩⟩
      | some outToc =>
        rw [htoc] at h
        cases hg : get_toc_ncx ar (pathJoin parent i.href) with
        | error e => rw [hg] at h; simp at h
        | ok t =>
          rw [hg] at h
          dsimp only at h
          cases hnm : t.navMap with
          | none => rw [hnm] at h; simp at h
          | some nm =>
            rw [hnm] at h
            cases honm : outToc.navMap with
            | none => rw [honm] at h; simp at h
            | some onm =>
              rw [honm] at h
              dsimp only at h
              injection h with h2
              subst h2
              exact Or.inl ⟨hm, Or.inr ⟨rfl, rfl, rfl⟩⟩
    · rw [if_neg hm] at h
      cases hr : readFile ar (pathJoin parent i.href) with
      | error e => rw [hr] at h; simp at h
      | ok fc =>
        rw [hr] at h
        dsimp only at h
        by_cases hx : i.mediaType = some xhtmlMediaType
        · rw [if_pos hx] at h
          injection h with h2
          subst h2
          exact Or.inr ⟨hm, rfl, rfl⟩
        · rw [if_neg hx] at h
          injection h with h2
          subst h2
          exact Or.inr ⟨hm, rfl, rfl⟩

/-- A manifest loop that never halts appends exactly the processed
items to the combined manifest, and every id it saw was non-empty. -/
theorem manifestFold_cont_inv (idx : Nat) (parent : String) (ar : Archive) :
    ∀ (items : List ManifestItem) (a a2 : ArchState),
    foldLoop (processManifestEntry idx parent ar) a items = LoopRes.cont a2 →
    a2.st.outManifest =
      a.st.outManifest ++ processedItems idx a.st.tocRoot.isNone items ∧
    (∀ i ∈ items, pyFalsy i.id = false) := by
  intro items
  induction items with
  | nil =>
    intro a a2 h
    rw [foldLoop_nil] at h
    injection h with h2
    subst h2
    refine ⟨?_, fun i hi => absurd hi (List.not_mem_nil i)⟩
    rw [show processedItems idx a.st.tocRoot.isNone [] = [] from rfl,
      List.append_nil]
  | cons i rest ih =>
    intro a a2 h
    rw [foldLoop_cons] at h
    cases hstep : processManifestEntry idx parent ar a i with
    | halt o s => rw [hstep] at h; simp at h
    | cont a1 =>
      rw [hstep] at h
      obtain ⟨hm2, hfal⟩ := ih a1 a2 h
      obtain ⟨hid, hcase⟩ := pme_cont_inv idx parent ar a a1 i hstep
      refine ⟨?_, ?_⟩
      · rcases hcase with ⟨hncx, ⟨htn, hom, htr1⟩ | ⟨htn, hom, htr1⟩⟩ |
          ⟨hncx, hom, htr1⟩
        · have hbt : a.st.tocRoot.isNone = true := by rw [htn]; rfl
          rw [hbt, processedItems_cons_ncx_true idx i rest hncx, hm2, hom,
            htr1, List.append_assoc]
          rfl
        · rw [htn, processedItems_cons_ncx_false idx i rest hncx, hm2, hom,
            htr1]
        · rw [hom, htr1] at hm2
          rw [hm2, processedItems_cons_other idx a.st.tocRoot.isNone i rest
            hncx, List.append_assoc]
          rfl
      · intro j hj
        rcases List.mem_cons.mp hj with h1 | h1
        · rw [h1]; exact hid
        · exact hfal j h1
/-! ## Preservation lemmas: the phases around the manifest loop leave
the combined manifest and the adopted navigation document alone -/

theorem openPhase_pres (st : MState) (ar : Archive) :
    (openPhase st ar).outManifest = st.outManifest ∧
    (openPhase st ar).tocRoot = st.tocRoot := by
  unfold openPhase
  split <;> exact ⟨rfl, rfl⟩

theorem adoptPhase_cont_pres (st : MState) (ar : Archive) (st2 : MState)
    (h : adoptPhase st ar = LoopRes.cont st2) :
    st2.outManifest = st.outManifest ∧ st2.tocRoot = st.tocRoot := by
  unfold adoptPhase at h
  split at h
  · split at h
    · simp at h
    · split at h
      · simp at h
      · cases h
        exact ⟨rfl, rfl⟩
  · cases h
    exact ⟨rfl, rfl⟩

theorem wb_pres (m : List (String × String)) :
    ∀ (pc : List (String × Content)) (st : MState),
    ((writeBuffered pc m st).stateOf).outManifest = st.outManifest ∧
    ((writeBuffered pc m st).stateOf).tocRoot = st.tocRoot := by
  intro pc
  induction pc with
  | nil => intro st; exact ⟨rfl, rfl⟩
  | cons p rest ih =>
    intro st
    obtain ⟨q, c⟩ := p
    show (((match replace_all_hrefs c m with
      | Except.error e => LoopRes.halt (Outcome.raised e) st
      | Except.ok c1 =>
        match replace_all_src c1 m with
        | Except.error e => LoopRes.halt (Outcome.raised e) st
        | Except.ok c2 =>
          writeBuffered rest m
            { st with out := st.out ++ [(q, c2)] }).stateOf).outManifest
        = st.outManifest) ∧
      (((match replace_all_hrefs c m with
      | Except.error e => LoopRes.halt (Outcome.raised e) st
      | Except.ok c1 =>
        match replace_all_src c1 m with
        | Except.error e => LoopRes.halt (Outcome.raised e) st
        | Except.ok c2 =>
          writeBuffered rest m
            { st with out := st.out ++ [(q, c2)] }).stateOf).tocRoot
        = st.tocRoot)
    cases replace_all_hrefs c m with
    | error e => exact ⟨rfl, rfl⟩
    | ok c1 =>
      dsimp only
      cases replace_all_src c1 m with
      | error e => exact ⟨rfl, rfl⟩
      | ok c2 =>
        dsimp only
        exact ⟨(ih _).1, (ih _).2⟩

theorem spineFold_pres (idx : Nat) (sp : List SpineItem) (st : MState) :
    ((foldLoop (processSpineEntry idx) st sp).stateOf).outManifest =
      st.outManifest ∧
    ((foldLoop (processSpineEntry idx) st sp).stateOf).tocRoot =
      st.tocRoot := by
  refine foldLoop_frame
    (fun s t => t.outManifest = s.outManifest ∧ t.tocRoot = s.tocRoot)
    (processSpineEntry idx) (fun s => ⟨rfl, rfl⟩) ?_ ?_ sp st
  · intro a b c h1 h2
    exact ⟨h2.1.trans h1.1, h2.2.trans h1.2⟩
  · intro s x
    unfold processSpineEntry
    split <;> exact ⟨rfl, rfl⟩

/-! ## No loop body ever halts with the successful outcome: `return
True` happens only at the very end of epub_merge -/

theorem pme_no_halt_ok (idx : Nat) (parent : String) (ar : Archive)
    (a : ArchState) (i : ManifestItem) (s : ArchState) :
    processManifestEntry idx parent ar a i ≠
      LoopRes.halt Outcome.ok s := by
  intro h
  unfold processManifestEntry at h
  by_cases hid : pyFalsy i.id = true
  · rw [if_pos hid] at h; simp at h
  · rw [if_neg hid] at h
    dsimp only at h
    by_cases hm : i.mediaType = some ncxMediaType
    · rw [if_pos hm] at h
      cases htoc : a.st.tocRoot with
      | none =>
        rw [htoc] at h
        cases hg : get_toc_ncx ar (pathJoin parent i.href) with
        | error e => rw [hg] at h; simp at h
        | ok t => rw [hg] at h; simp at h
      | some outToc =>
        rw [htoc] at h
        cases hg : get_toc_ncx ar (pathJoin parent i.href) with
        | error e => rw [hg] at h; simp at h
        | ok t =>
          rw [hg] at h
          dsimp only at h
          cases hnm : t.navMap with
          | none => rw [hnm] at h; simp at h
          | some nm =>
            rw [hnm] at h
            cases honm : outToc.navMap with
            | none => rw [honm] at h; simp at h
            | some onm => rw [honm] at h; simp at h
    · rw [if_neg hm] at h
      cases hr : readFile ar (pathJoin parent i.href) with
      | error e => rw [hr] at h; simp at h
      | ok fc =>
        rw [hr] at h
        dsimp only at h
        by_cases hx : i.mediaType = some xhtmlMediaType
        · rw [if_pos hx] at h; simp at h
        · rw [if_neg hx] at h; simp at h

theorem foldLoop_no_halt_ok {σ α : Type} (f : σ → α → LoopRes σ)
    (hf : ∀ s x s2, f s x ≠ LoopRes.halt Outcome.ok s2) :
    ∀ (l : List α) (s s2 : σ),
    foldLoop f s l ≠ LoopRes.halt Outcome.ok s2 := by
  intro l
  induction l with
  | nil => intro s s2 h; rw [foldLoop_nil] at h; simp at h
  | cons x xs ih =>
    intro s s2 h
    rw [foldLoop_cons] at h
    cases hfx : f s x with
    | cont s3 =>
      rw [hfx] at h
      exact ih s3 s2 h
    | halt o s3 =>
      rw [hfx] at h
      injection h with h1 h2
      subst h1
      exact hf s x s3 hfx

theorem wb_no_halt_ok (m : List (String × String)) :
    ∀ (pc : List (String × Content)) (st s : MState),
    writeBuffered pc m st ≠ LoopRes.halt Outcome.ok s := by
  intro pc
  induction pc with
  | nil => intro st s h; simp [writeBuffered] at h
  | cons p rest ih =>
    intro st s h
    obtain ⟨q, c⟩ := p
    unfold writeBuffered at h
    cases h1 : replace_all_hrefs c m with
    | error e => rw [h1] at h; simp at h
    | ok c1 =>
      rw [h1] at h
      dsimp only at h
      cases h2 : replace_all_src c1 m with
      | error e => rw [h2] at h; simp at h
      | ok c2 =>
        rw [h2] at h
        exact ih _ s h

theorem pse_no_halt_ok (idx : Nat) (st : MState) (i : SpineItem)
    (s : MState) :
    processSpineEntry idx st i ≠ LoopRes.halt Outcome.ok s := by
  intro h
  unfold processSpineEntry at h
  split at h
  all_goals simp at h

theorem adoptPhase_no_halt_ok (st : MState) (ar : Archive) (s : MState) :
    adoptPhase st ar ≠ LoopRes.halt Outcome.ok s := by
  intro h
  unfold adoptPhase at h
  repeat' split at h
  all_goals simp at h

theorem pa_no_halt_ok (st : MState) (p : Nat × Archive) (s : MState) :
    processArchive st p ≠ LoopRes.halt Outcome.ok s := by
  obtain ⟨idx, ar⟩ := p
  intro h
  unfold processArchive at h
  dsimp only at h
  cases hadopt : adoptPhase (openPhase st ar) ar with
  | halt o s1 =>
    rw [hadopt] at h
    injection h with h1 h2
    subst h1
    exact adoptPhase_no_halt_ok _ _ _ hadopt
  | cont st2 =>
    rw [hadopt] at h
    dsimp only at h
    cases hman : ar.opf.manifest with
    | none => rw [hman] at h; simp at h
    | some items =>
      rw [hman] at h
      dsimp only at h
      cases hfold : foldLoop
          (processManifestEntry idx (dirnamePy ar.opfPath) ar)
          { st := st2, updatedFiles := [], pathContents := [] } items with
      | halt o a =>
        rw [hfold] at h
        injection h with h1 h2
        subst h1
        exact foldLoop_no_halt_ok _
          (fun a2 x s2 => pme_no_halt_ok idx (dirnamePy ar.opfPath) ar a2 x s2)
          items _ a hfold
      | cont a =>
        rw [hfold] at h
        dsimp only at h
        cases hwb : writeBuffered a.pathContents a.updatedFiles a.st with
        | halt o s3 =>
          rw [hwb] at h
          injection h with h1 h2
          subst h1
          exact wb_no_halt_ok _ _ _ _ hwb
        | cont st3 =>
          rw [hwb] at h
          dsimp only at h
          cases hrse : replace_all_src_element st3.tocRoot a.updatedFiles with
          | error e => rw [hrse] at h; simp at h
          | ok t2 =>
            rw [hrse] at h
            dsimp only at h
            cases hsp : ar.opf.spine with
            | none => rw [hsp] at h; simp at h
            | some sp =>
              rw [hsp] at h
              exact foldLoop_no_halt_ok _
                (fun s4 x s5 => pse_no_halt_ok idx s4 x s5) sp _ s h
/-- A non-halting archive iteration appends exactly its processed
manifest items, always leaves a navigation document adopted (line 142
of merge.py would otherwise have raised), and saw only non-empty
manifest ids. -/
theorem pa_cont_shape (st : MState) (idx : Nat) (ar : Archive) (s2 : MState)
    (h : processArchive st (idx, ar) = LoopRes.cont s2) :
    s2.outManifest = st.outManifest ++
      processedItems idx st.tocRoot.isNone (ar.opf.manifest.getD []) ∧
    s2.tocRoot.isNone = false ∧
    (∀ i ∈ ar.opf.manifest.getD [], pyFalsy i.id = false) := by
  unfold processArchive at h
  dsimp only at h
  cases hadopt : adoptPhase (openPhase st ar) ar with
  | halt o s1 => rw [hadopt] at h; simp at h
  | cont st2 =>
    rw [hadopt] at h
    dsimp only at h
    have hpres : st2.outManifest = st.outManifest ∧
        st2.tocRoot = st.tocRoot := by
      have h1 := openPhase_pres st ar
      have h2 := adoptPhase_cont_pres (openPhase st ar) ar st2 hadopt
      exact ⟨h2.1.trans h1.1, h2.2.trans h1.2⟩
    cases hman : ar.opf.manifest with
    | none => rw [hman] at h; simp at h
    | some items =>
      rw [hman] at h
      dsimp only at h
      cases hfold : foldLoop
          (processManifestEntry idx (dirnamePy ar.opfPath) ar)
          { st := st2, updatedFiles := [], pathContents := [] } items with
      | halt o a => rw [hfold] at h; simp at h
      | cont a =>
        rw [hfold] at h
        dsimp only at h
        obtain ⟨hfm, hffal⟩ := manifestFold_cont_inv idx
          (dirnamePy ar.opfPath) ar items _ a hfold
        cases hwb : writeBuffered a.pathContents a.updatedFiles a.st with
        | halt o s3 => rw [hwb] at h; simp at h
        | cont st3 =>
          rw [hwb] at h
          dsimp only at h
          have hwp := wb_pres a.updatedFiles a.pathContents a.st
          rw [hwb] at hwp
          simp only [LoopRes.stateOf] at hwp
          cases hrse : replace_all_src_element st3.tocRoot
              a.updatedFiles with
          | error e => rw [hrse] at h; simp at h
          | ok t2 =>
            rw [hrse] at h
            dsimp only at h
            cases hsp : ar.opf.spine with
            | none => rw [hsp] at h; simp at h
            | some sp =>
              rw [hsp] at h
              dsimp only at h
              have hsf := spineFold_pres idx sp { st3 with tocRoot := some t2 }
              rw [h] at hsf
              simp only [LoopRes.stateOf] at hsf
              refine ⟨?_, ?_, ?_⟩
              · have h8 : s2.outManifest = st3.outManifest := hsf.1
                rw [h8, hwp.1, hfm]
                dsimp only
                rw [hpres.1, hpres.2]
                rfl
              · have h9 : s2.tocRoot = some t2 := hsf.2
                simp [h9]
              · intro i hi
                exact hffal i hi

/-- What the archive loop as a whole does to the combined manifest
when it never halts: it appends `mergedManifest`, every manifest id it
saw is non-empty, and (once at least one archive was processed) a
navigation document is adopted. -/
theorem mergeLoop_cont_shape :
    ∀ (ars : List Archive) (k : Nat) (st s2 : MState),
    foldLoop processArchive st (pyEnum k ars) = LoopRes.cont s2 →
    s2.outManifest =
      st.outManifest ++ mergedManifest k st.tocRoot.isNone ars ∧
    (∀ ar ∈ ars, ∀ i ∈ ar.opf.manifest.getD [], pyFalsy i.id = false) ∧
    ((ars = [] ∧ s2 = st) ∨ s2.tocRoot.isNone = false) := by
  intro ars
  induction ars with
  | nil =>
    intro k st s2 h
    rw [show pyEnum k ([] : List Archive) = [] from rfl, foldLoop_nil] at h
    injection h with h2
    subst h2
    refine ⟨?_, fun ar har => absurd har (List.not_mem_nil ar),
      Or.inl ⟨rfl, rfl⟩⟩
    rw [show mergedManifest k st.tocRoot.isNone [] = [] from rfl,
      List.append_nil]
  | cons ar rest ih =>
    intro k st s2 h
    rw [show pyEnum k (ar :: rest) = (k, ar) :: pyEnum (k + 1) rest from rfl,
      foldLoop_cons] at h
    cases hpa : processArchive st (k, ar) with
    | halt o s1 => rw [hpa] at h; simp at h
    | cont s1 =>
      rw [hpa] at h
      obtain ⟨hm1, ht1, hfal1⟩ := pa_cont_shape st k ar s1 hpa
      obtain ⟨hm2, hfal2, hlast⟩ := ih (k + 1) s1 s2 h
      refine ⟨?_, ?_, Or.inr ?_⟩
      · rw [hm2, ht1, hm1, List.append_assoc]
        rfl
      · intro ar2 har2
        rcases List.mem_cons.mp har2 with h1 | h1
        · rw [h1]; exact hfal1
        · exact hfal2 ar2 h1
      · rcases hlast with ⟨hnil, heq⟩ | hfalse
        · rw [heq]; exact ht1
        · exact hfalse

/-- A merge that returns True wrote the combined package document —
whose manifest children are exactly `mergedManifest` over the archive
list — followed by at most the navigation document, and every manifest
id of every input archive is non-empty. -/
theorem epub_merge_ok_shape (archives : List Archive)
    (hok : (epub_merge archives).outcome = Outcome.ok) :
    ∃ pre loc F rest2,
      (epub_merge archives).out = pre ++ (loc, Content.opf F) :: rest2 ∧
      F.manifest = some (mergedManifest 0 true archives) ∧
      (∀ ar ∈ archives, ∀ i ∈ ar.opf.manifest.getD [],
        pyFalsy i.id = false) := by
  unfold epub_merge at hok ⊢
  cases hres : foldLoop processArchive initState (pyEnum 0 archives) with
  | halt o s =>
    rw [hres] at hok
    dsimp only at hok
    subst hok
    exact absurd hres (foldLoop_no_halt_ok processArchive
      (fun a x s2 => pa_no_halt_ok a x s2) _ _ _)
  | cont s =>
    rw [hres] at hok
    dsimp only at hok ⊢
    obtain ⟨hm, hfal, hlast⟩ := mergeLoop_cont_shape archives 0 initState s hres
    have hmm : s.outManifest = mergedManifest 0 true archives := by
      rw [hm]
      rfl
    cases hloc : s.opfLoc with
    | none =>
      cases hbo : s.baseOpf with
      | none => rw [hloc, hbo] at hok; simp at hok
      | some base => rw [hloc, hbo] at hok; simp at hok
    | some loc =>
      cases hbo : s.baseOpf with
      | none => rw [hloc, hbo] at hok; simp at hok
      | some base =>
        dsimp only
        cases htr : s.tocRoot with
        | some t =>
          cases htp : s.tocPath with
          | some p =>
            dsimp only
            refine ⟨s.out, loc,
              OpfDoc.mk (some s.outManifest) (some s.outSpine) base.metadata,
              [(p, Content.toc t)], ?_, ?_, hfal⟩
            · rw [List.append_assoc]
              rfl
            · dsimp only
              rw [hmm]
          | none =>
            dsimp only
            refine ⟨s.out, loc,
              OpfDoc.mk (some s.outManifest) (some s.outSpine) base.metadata,
              [], ?_, ?_, hfal⟩
            · rfl
            · dsimp only
              rw [hmm]
        | none =>
          rcases hlast with ⟨hnil, hseq⟩ | hfalse
          · rw [hseq] at hloc
            simp [initState] at hloc
          · simp [htr] at hfalse
/-- Membership in one archive's processed block: an element is either
the adopted navigation entry — the first of the NCX media type, and
only when no navigation document was adopted before the block — or the
namespaced form of a non-navigation entry. -/
theorem processedItems_mem (idx : Nat) :
    ∀ (items : List ManifestItem) (b : Bool) (y : Option String),
    y ∈ (processedItems idx b items).map ManifestItem.id →
    (b = true ∧ ∃ e, firstNavEntry items = some e ∧ y = e.id) ∨
    (∃ f ∈ items, ¬ f.mediaType = some ncxMediaType ∧
      y = (nsItem idx f).id) := by
  intro items
  induction items with
  | nil =>
    intro b y hy
    rw [show processedItems idx b [] = [] from rfl] at hy
    simp at hy
  | cons i rest ih =>
    intro b y hy
    by_cases hm : i.mediaType = some ncxMediaType
    · cases b with
      | true =>
        rw [processedItems_cons_ncx_true idx i rest hm, List.map_cons] at hy
        rcases List.mem_cons.mp hy with h1 | h1
        · exact Or.inl ⟨rfl, i, firstNavEntry_cons_pos i rest hm, h1⟩
        · rcases ih false y h1 with ⟨hb, _⟩ | ⟨f, hf, hfm, hfy⟩
          · simp at hb
          · exact Or.inr ⟨f, List.mem_cons_of_mem i hf, hfm, hfy⟩
      | false =>
        rw [processedItems_cons_ncx_false idx i rest hm] at hy
        rcases ih false y hy with ⟨hb, _⟩ | ⟨f, hf, hfm, hfy⟩
        · simp at hb
        · exact Or.inr ⟨f, List.mem_cons_of_mem i hf, hfm, hfy⟩
    · rw [processedItems_cons_other idx b i rest hm, List.map_cons] at hy
      rcases List.mem_cons.mp hy with h1 | h1
      · exact Or.inr ⟨i, List.mem_cons_self i rest, hm, h1⟩
      · rcases ih b y h1 with ⟨hb, e, he, hye⟩ | ⟨f, hf, hfm, hfy⟩
        · refine Or.inl ⟨hb, e, ?_, hye⟩
          rw [firstNavEntry_cons_neg i rest hm]
          exact he
        · exact Or.inr ⟨f, List.mem_cons_of_mem i hf, hfm, hfy⟩

/-- The ids of one archive's processed block are pairwise distinct
when the archive's own manifest ids are, none is empty, and the
adopted navigation entry's id (if the block adopts one) avoids the
namespaced ids of the archive. -/
theorem processedItems_nodup (idx : Nat) :
    ∀ (items : List ManifestItem) (b : Bool),
    ((items.map ManifestItem.id).Nodup) →
    (∀ i ∈ items, pyFalsy i.id = false) →
    (b = true → ∀ e, firstNavEntry items = some e →
      ∀ f ∈ items, ¬ f.mediaType = some ncxMediaType →
      e.id ≠ (nsItem idx f).id) →
    ((processedItems idx b items).map ManifestItem.id).Nodup := by
  intro items
  induction items with
  | nil =>
    intro b _ _ _
    rw [show processedItems idx b [] = [] from rfl]
    exact List.nodup_nil
  | cons i rest ih =>
    intro b hnd hfal hfresh
    rw [List.map_cons, List.nodup_cons] at hnd
    have hfal2 : ∀ j ∈ rest, pyFalsy j.id = false :=
      fun j hj => hfal j (List.mem_cons_of_mem i hj)
    by_cases hm : i.mediaType = some ncxMediaType
    · cases b with
      | true =>
        rw [processedItems_cons_ncx_true idx i rest hm, List.map_cons,
          List.nodup_cons]
        constructor
        · intro hmem
          rcases processedItems_mem idx rest false i.id hmem with
            ⟨hb, _⟩ | ⟨f, hf, hfm, hfy⟩
          · simp at hb
          · exact hfresh rfl i (firstNavEntry_cons_pos i rest hm) f
              (List.mem_cons_of_mem i hf) hfm hfy
        · exact ih false hnd.2 hfal2 (fun hb => by simp at hb)
      | false =>
        rw [processedItems_cons_ncx_false idx i rest hm]
        exact ih false hnd.2 hfal2 (fun hb => by simp at hb)
    · rw [processedItems_cons_other idx b i rest hm, List.map_cons,
        List.nodup_cons]
      constructor
      · intro hmem
        rcases processedItems_mem idx rest b ((nsItem idx i).id) hmem with
          ⟨hb, e, he, hye⟩ | ⟨f, hf, hfm, hfy⟩
        · refine hfresh hb e ?_ i (List.mem_cons_self i rest) hm hye.symm
          rw [firstNavEntry_cons_neg i rest hm]
          exact he
        · obtain ⟨si, hsi⟩ : ∃ sv, i.id = some sv := by
            cases hii : i.id with
            | none =>
              have := hfal i (List.mem_cons_self i rest)
              rw [hii] at this
              simp [pyFalsy] at this
            | some sv => exact ⟨sv, rfl⟩
          obtain ⟨sf, hsf⟩ : ∃ sv, f.id = some sv := by
            cases hff : f.id with
            | none =>
              have := hfal2 f hf
              rw [hff] at this
              simp [pyFalsy] at this
            | some sv => exact ⟨sv, rfl⟩
          have h2 : toString idx ++ "_" ++ i.id.getD "" =
              toString idx ++ "_" ++ f.id.getD "" :=
            Option.some.inj hfy
          have h3 := (nsId_inj idx idx (i.id.getD "") (f.id.getD "") h2).2
          rw [hsi, hsf] at h3
          simp only [Option.getD_some] at h3
          have h4 : i.id = f.id := by rw [hsi, hsf, h3]
          exact hnd.1 (h4 ▸ List.mem_map_of_mem ManifestItem.id hf)
      · refine ih b hnd.2 hfal2 ?_
        intro hb e he f hf
        refine hfresh hb e ?_ f (List.mem_cons_of_mem i hf)
        rw [firstNavEntry_cons_neg i rest hm]
        exact he

/-- Membership in the whole combined manifest: an element is either
the adopted navigation entry of the first archive (when the merge
starts with none adopted) or the namespaced form of a non-navigation
entry of the archive at some index. -/
theorem mergedManifest_mem :
    ∀ (ars : List Archive) (k : Nat) (b : Bool) (y : Option String),
    y ∈ (mergedManifest k b ars).map ManifestItem.id →
    (b = true ∧ ∃ ar0, ars.head? = some ar0 ∧ ∃ e,
      firstNavEntry (ar0.opf.manifest.getD []) = some e ∧ y = e.id) ∨
    (∃ (j : Nat) (ar2 : Archive), ars.get? j = some ar2 ∧
      ∃ f ∈ ar2.opf.manifest.getD [], ¬ f.mediaType = some ncxMediaType ∧
      y = (nsItem (k + j) f).id) := by
  intro ars
  induction ars with
  | nil =>
    intro k b y hy
    rw [show mergedManifest k b [] = [] from rfl] at hy
    simp at hy
  | cons ar rest ih =>
    intro k b y hy
    rw [show mergedManifest k b (ar :: rest) =
      processedItems k b (ar.opf.manifest.getD []) ++
        mergedManifest (k + 1) false rest from rfl, List.map_append] at hy
    rcases List.mem_append.mp hy with h1 | h1
    · rcases processedItems_mem k (ar.opf.manifest.getD []) b y h1 with
        ⟨hb, e, he, hye⟩ | ⟨f, hf, hfm, hfy⟩
      · exact Or.inl ⟨hb, ar, rfl, e, he, hye⟩
      · refine Or.inr ⟨0, ar, rfl, f, hf, hfm, ?_⟩
        rw [Nat.add_zero]
        exact hfy
    · rcases ih (k + 1) false y h1 with ⟨hb, _⟩ |
        ⟨j, ar2, hj, f, hf, hfm, hfy⟩
      · simp at hb
      · refine Or.inr ⟨j + 1, ar2, hj, f, hf, hfm, ?_⟩
        rw [show k + (j + 1) = k + 1 + j from by omega]
        exact hfy

/-- Pairwise distinctness of the combined manifest's ids: each
archive's ids are distinct and namespaced with its own index, indices
of distinct archives produce distinct namespaces, and the adopted
navigation entry's original id avoids every namespaced id. -/
theorem mergedManifest_nodup :
    ∀ (ars : List Archive) (k : Nat) (b : Bool),
    (∀ ar ∈ ars, ((ar.opf.manifest.getD []).map ManifestItem.id).Nodup) →
    (∀ ar ∈ ars, ∀ i ∈ ar.opf.manifest.getD [], pyFalsy i.id = false) →
    (b = true → ∀ ar0, ars.head? = some ar0 →
      ∀ e, firstNavEntry (ar0.opf.manifest.getD []) = some e →
      ∀ (j : Nat) (ar2 : Archive), ars.get? j = some ar2 →
      ∀ f ∈ ar2.opf.manifest.getD [], ¬ f.mediaType = some ncxMediaType →
      e.id ≠ (nsItem (k + j) f).id) →
    ((mergedManifest k b ars).map ManifestItem.id).Nodup := by
  intro ars
  induction ars with
  | nil =>
    intro k b _ _ _
    rw [show mergedManifest k b [] = [] from rfl]
    exact List.nodup_nil
  | cons ar rest ih =>
    intro k b huniq hfal hfresh
    rw [show mergedManifest k b (ar :: rest) =
      processedItems k b (ar.opf.manifest.getD []) ++
        mergedManifest (k + 1) false rest from rfl, List.map_append]
    refine List.Nodup.append ?_ ?_ ?_
    · refine processedItems_nodup k (ar.opf.manifest.getD []) b
        (huniq ar (List.mem_cons_self ar rest))
        (hfal ar (List.mem_cons_self ar rest)) ?_
      intro hb e he f hf hfm
      have h0 := hfresh hb ar rfl e he 0 ar rfl f hf hfm
      rwa [Nat.add_zero] at h0
    · exact ih (k + 1) false
        (fun a ha => huniq a (List.mem_cons_of_mem ar ha))
        (fun a ha => hfal a (List.mem_cons_of_mem ar ha))
        (fun hb => by simp at hb)
    · intro y hy1 hy2
      rcases processedItems_mem k (ar.opf.manifest.getD []) b y hy1 with
        ⟨hb, e, he, hye⟩ | ⟨f, hf, hfm, hfy⟩
      · rcases mergedManifest_mem rest (k + 1) false y hy2 with
          ⟨hb2, _⟩ | ⟨j, ar2, hj, f2, hf2, hfm2, hfy2⟩
        · simp at hb2
        · refine hfresh hb ar rfl e he (j + 1) ar2 hj f2 hf2 hfm2 ?_
          rw [← hye, hfy2, show k + (j + 1) = k + 1 + j from by omega]
      · rcases mergedManifest_mem rest (k + 1) false y hy2 with
          ⟨hb2, _⟩ | ⟨j, ar2, hj, f2, hf2, hfm2, hfy2⟩
        · simp at hb2
        · have h1 : (nsItem k f).id = (nsItem (k + 1 + j) f2).id :=
            hfy.symm.trans hfy2
          have h2 : toString k ++ "_" ++ f.id.getD "" =
              toString (k + 1 + j) ++ "_" ++ f2.id.getD "" :=
            Option.some.inj h1
          have h3 := (nsId_inj k (k + 1 + j) (f.id.getD "")
            (f2.id.getD "") h2).1
          omega
/-- C3 (amended): in every merge of any list of archives that returns
successfully, provided each input archive's own manifest ids are
pairwise distinct and the adopted navigation entry's original id
differs from every namespaced id "{archive_index}_{id}" formed from a
non-navigation entry of the archive at any index, the id attributes of
the entries in the manifest of the package document written to the
output are pairwise distinct: non-navigation ids are prefixed with
"{archive_index}_" over the plural archive indices, while the single
surviving navigation entry keeps its original id — the proviso on that
kept id being forced by the counterexample. -/
theorem claim_C3_amended (archives : List Archive)
    (hok : (epub_merge archives).outcome = Outcome.ok)
    (huniq : ∀ ar ∈ archives,
      ((ar.opf.manifest.getD []).map ManifestItem.id).Nodup)
    (hfresh : ∀ ar0, archives.head? = some ar0 →
      ∀ e, firstNavEntry (ar0.opf.manifest.getD []) = some e →
      ∀ (j : Fin archives.length) (f : ManifestItem),
      f ∈ ((archives.get j).opf.manifest.getD []) →
      ¬ f.mediaType = some ncxMediaType →
      e.id ≠ some (toString j.val ++ "_" ++ f.id.getD "")) :
    ∃ pre loc F rest2,
      (epub_merge archives).out = pre ++ (loc, Content.opf F) :: rest2 ∧
      F.manifest = some (mergedManifest 0 true archives) ∧
      ((mergedManifest 0 true archives).map ManifestItem.id).Nodup := by
  obtain ⟨pre, loc, F, rest2, hout, hFm, hfal⟩ :=
    epub_merge_ok_shape archives hok
  refine ⟨pre, loc, F, rest2, hout, hFm, ?_⟩
  refine mergedManifest_nodup archives 0 true huniq hfal ?_
  intro _ ar0 h0 e he j ar2 hj f hf hfm
  obtain ⟨hjlt, hjget⟩ := List.get?_eq_some.mp hj
  have h5 := hfresh ar0 h0 e he ⟨j, hjlt⟩ f (by rw [hjget]; exact hf) hfm
  rw [show (nsItem (0 + j) f).id =
    some (toString (0 + j) ++ "_" ++ f.id.getD "") from rfl]
  rw [Nat.zero_add]
  exact h5

/-- First witness archive: a navigation entry and an image entry whose
id "a" recurs in the second archive. -/
def w3A : Archive :=
  { containerXml := "cA", opfPath := "content.opf",
    opf := { manifest := some [
               ManifestItem.mk (some "nav") "toc.ncx" (some ncxMediaType),
               ManifestItem.mk (some "a") "pic.png" (some "image/png")],
             spine := some [], metadata := none },
    files := [("toc.ncx", Content.toc (TocRoot.mk [] (some []))),
              ("pic.png", Content.bytes "p")] }

/-- Second witness archive: its navigation entry is merged away and
its image entry reuses the id "a". -/
def w3B : Archive :=
  { containerXml := "cB", opfPath := "content.opf",
    opf := { manifest := some [
               ManifestItem.mk (some "nav2") "toc.ncx" (some ncxMediaType),
               ManifestItem.mk (some "a") "pic.png" (some "image/png")],
             spine := some [], metadata := none },
    files := [("toc.ncx", Content.toc (TocRoot.mk [] (some []))),
              ("pic.png", Content.bytes "q")] }

theorem claim_C3_witness :
    ∃ pre loc F rest2,
      (epub_merge [w3A, w3B]).out = pre ++ (loc, Content.opf F) :: rest2 ∧
      F.manifest = some (mergedManifest 0 true [w3A, w3B]) ∧
      ((mergedManifest 0 true [w3A, w3B]).map ManifestItem.id).Nodup :=
  claim_C3_amended [w3A, w3B] rfl (by decide)
    (by
      intro ar0 h0 e he j f hf hfm
      have h0b : some w3A = some ar0 := h0
      have har : ar0 = w3A := (Option.some.inj h0b).symm
      subst har
      have he2 : some (ManifestItem.mk (some "nav") "toc.ncx"
        (some ncxMediaType)) = some e := he
      have hee : e = ManifestItem.mk (some "nav") "toc.ncx"
        (some ncxMediaType) := (Option.some.inj he2).symm
      subst hee
      obtain ⟨jv, hjlt⟩ := j
      have hjlt2 : jv < 2 := hjlt
      rcases jv with _ | _ | jv2
      · have hf2 : f ∈
            [ManifestItem.mk (some "nav") "toc.ncx" (some ncxMediaType),
             ManifestItem.mk (some "a") "pic.png" (some "image/png")] := hf
        rcases List.mem_cons.mp hf2 with h1 | h1
        · rw [h1] at hfm
          exact absurd rfl hfm
        · rcases List.mem_cons.mp h1 with h2 | h2
          · rw [h2]
            exact (by decide :
              (ManifestItem.mk (some "nav") "toc.ncx"
                (some ncxMediaType)).id ≠
              some (toString (0 : Nat) ++ "_" ++
                (ManifestItem.mk (some "a") "pic.png"
                  (some "image/png")).id.getD ""))
          · exact absurd h2 (List.not_mem_nil f)
      · have hf2 : f ∈
            [ManifestItem.mk (some "nav2") "toc.ncx" (some ncxMediaType),
             ManifestItem.mk (some "a") "pic.png" (some "image/png")] := hf
        rcases List.mem_cons.mp hf2 with h1 | h1
        · rw [h1] at hfm
          exact absurd rfl hfm
        · rcases List.mem_cons.mp h1 with h2 | h2
          · rw [h2]
            exact (by decide :
              (ManifestItem.mk (some "nav") "toc.ncx"
                (some ncxMediaType)).id ≠
              some (toString (1 : Nat) ++ "_" ++
                (ManifestItem.mk (some "a") "pic.png"
                  (some "image/png")).id.getD ""))
          · exact absurd h2 (List.not_mem_nil f)
      · exact absurd hjlt2 (by omega))
theorem foldLoop_append {σ α : Type} (f : σ → α → LoopRes σ)
    (l1 l2 : List α) : ∀ (s : σ),
    foldLoop f s (l1 ++ l2) =
      match foldLoop f s l1 with
      | LoopRes.cont s2 => foldLoop f s2 l2
      | LoopRes.halt o s2 => LoopRes.halt o s2 := by
  induction l1 with
  | nil => intro s; rfl
  | cons x xs ih =>
    intro s
    rw [List.cons_append, foldLoop_cons, foldLoop_cons]
    cases f s x with
    | cont s2 => exact ih s2
    | halt o s2 => rfl

/-- Archive shape for the spine half of the amended C6 theorem: a
navigation entry, further entries, and an arbitrary spine. -/
def navSpineArchive (navId navHref : String) (t : TocRoot)
    (rest : List ManifestItem) (fs : List (String × Content))
    (sp : List SpineItem) : Archive :=
  { containerXml := "c", opfPath := "content.opf",
    opf := { manifest := some (ManifestItem.mk (some navId) navHref
               (some ncxMediaType) :: rest),
             spine := some sp, metadata := none },
    files := (navHref, Content.toc t) :: fs }

/-- Archive whose only manifest entry lacks an id, used to refute the
no-partial-output half of claim C6. -/
def c6Arch : Archive :=
  { containerXml := "c", opfPath := "content.opf",
    opf := { manifest := some [ManifestItem.mk none "ch.xhtml"
               (some xhtmlMediaType)],
             spine := some [], metadata := none },
    files := [] }

/-- C6 counterexample: on a manifest entry without an id the merge
does return False, but the destination zip already holds the mimetype
and container entries — a partial output archive is retained on disk,
contradicting the claim's "no partial output retained". -/
theorem claim_C6_counterexample :
    (epub_merge [c6Arch]).outcome = Outcome.failed ∧
    (epub_merge [c6Arch]).out =
      [(MIMETYPE_PATH, Content.bytes MIMETYPE_DATA),
       (CONTAINER_XML_PATH, Content.bytes "c")] ∧
    (epub_merge [c6Arch]).out ≠ [] :=
  ⟨rfl, rfl, by
    rw [show (epub_merge [c6Arch]).out =
      [(MIMETYPE_PATH, Content.bytes MIMETYPE_DATA),
       (CONTAINER_XML_PATH, Content.bytes "c")] from rfl]
    simp⟩

/-- C6 (amended): a manifest entry lacking an id (or a spine entry
lacking an idref) makes epub_merge abort the whole merge reporting
failure (return False); however the partially written output archive is
retained on disk — it begins with the already-written mimetype entry.
Part 1: missing manifest id on the first archive, after any number of
well-formed non-navigation entries.  Part 2: missing spine idref on an
archive whose manifest (navigation entry first) processed fully. -/
theorem claim_C6_amended :
    (∀ (a0 : Archive) (rest : List Archive) (goods more : List ManifestItem)
       (bad : ManifestItem) (sp : List SpineItem),
      a0.opf.manifest = some (goods ++ bad :: more) →
      a0.opf.spine = some sp →
      (∀ i ∈ goods, goodEntry a0 (dirnamePy a0.opfPath) i) →
      pyFalsy bad.id = true →
      (epub_merge (a0 :: rest)).outcome = Outcome.failed ∧
      ((epub_merge (a0 :: rest)).out).head? =
        some (MIMETYPE_PATH, Content.bytes MIMETYPE_DATA)) ∧
    (∀ (navId navHref : String) (t : TocRoot) (rest2 : List ManifestItem)
       (fs : List (String × Content)) (badSp : SpineItem)
       (moreSp : List SpineItem),
      navId ≠ "" →
      (∀ i ∈ rest2, goodEntry (navSpineArchive navId navHref t rest2 fs
        (badSp :: moreSp)) "." i) →
      pyFalsy badSp.idref = true →
      (epub_merge [navSpineArchive navId navHref t rest2 fs
        (badSp :: moreSp)]).outcome = Outcome.failed ∧
      ((epub_merge [navSpineArchive navId navHref t rest2 fs
        (badSp :: moreSp)]).out).head? =
        some (MIMETYPE_PATH, Content.bytes MIMETYPE_DATA)) := by
  constructor
  · intro a0 rest goods more bad sp hman hsp hgoods hbad
    unfold epub_merge
    rw [show pyEnum 0 (a0 :: rest) = (0, a0) :: pyEnum 1 rest from rfl,
      foldLoop_cons]
    unfold processArchive
    dsimp only
    rw [openPhase_init a0]
    rw [adoptPhase_concrete _ a0 (goods ++ bad :: more) sp rfl hman hsp]
    dsimp only
    rw [hman]
    dsimp only
    obtain ⟨a2, heq, hm, hl, hbo, hsp2, htp, htr, ⟨d, hout⟩, hpc⟩ :=
      foldManifest_good 0 (dirnamePy a0.opfPath) a0 goods
        { st := { out := [(MIMETYPE_PATH, Content.bytes MIMETYPE_DATA),
                          (CONTAINER_XML_PATH, Content.bytes a0.containerXml)],
                  opfLoc := some a0.opfPath, baseOpf := some a0.opf,
                  outManifest := [], outSpine := [], tocPath := none,
                  tocRoot := none },
          updatedFiles := [], pathContents := [] } hgoods
    rw [foldLoop_append, heq]
    dsimp only
    rw [foldLoop_cons]
    rw [show processManifestEntry 0 (dirnamePy a0.opfPath) a0 a2 bad =
      LoopRes.halt Outcome.failed a2 from by
        unfold processManifestEntry
        simp [hbad]]
    dsimp only
    refine ⟨rfl, ?_⟩
    show (a2.st.out).head? = _
    rw [hout]
    rfl
  · intro navId navHref t rest2 fs badSp moreSp hnav hgoods hbad
    have hid0 : pyFalsy (some navId) = false := by
      simp [pyFalsy, hnav]
    have htoc0 : get_toc_ncx (navSpineArchive navId navHref t rest2 fs
        (badSp :: moreSp)) (pathJoin "." navHref) = Except.ok t := by
      simp [get_toc_ncx, readFile, alistLookupC, pathJoin, navSpineArchive]
    obtain ⟨a2, heq, hm, hl, hbo, hsp2, htp, htr, ⟨d, hout⟩, hpc⟩ :=
      foldManifest_good 0 "." (navSpineArchive navId navHref t rest2 fs
        (badSp :: moreSp)) rest2
        { st := { out := [(MIMETYPE_PATH, Content.bytes MIMETYPE_DATA),
                          (CONTAINER_XML_PATH, Content.bytes
                            (navSpineArchive navId navHref t rest2 fs
                              (badSp :: moreSp)).containerXml)],
                  opfLoc := some (navSpineArchive navId navHref t rest2 fs
                    (badSp :: moreSp)).opfPath,
                  baseOpf := some (navSpineArchive navId navHref t rest2 fs
                    (badSp :: moreSp)).opf,
                  outManifest := [ManifestItem.mk (some navId) navHref
                    (some ncxMediaType)],
                  outSpine := [], tocPath := some (pathJoin "." navHref),
                  tocRoot := some t },
          updatedFiles := [], pathContents := [] } hgoods
    obtain ⟨st3, hwb, hwout, hwl, hwbo, hwm, hws, hwtp, hwtr⟩ :=
      writeBuffered_ok a2.updatedFiles a2.pathContents a2.st
        (fun p hp => (hpc p hp).resolve_left (by simp))
    unfold epub_merge
    rw [show pyEnum 0 [navSpineArchive navId navHref t rest2 fs
      (badSp :: moreSp)] = [(0, navSpineArchive navId navHref t rest2 fs
      (badSp :: moreSp))] from rfl]
    rw [foldLoop_cons]
    unfold processArchive
    dsimp only
    rw [openPhase_init]
    rw [adoptPhase_concrete _ _
      (ManifestItem.mk (some navId) navHref (some ncxMediaType) :: rest2)
      (badSp :: moreSp) rfl rfl rfl]
    dsimp only
    rw [show dirnamePy (navSpineArchive navId navHref t rest2 fs
      (badSp :: moreSp)).opfPath = "." from rfl]
    rw [show (navSpineArchive navId navHref t rest2 fs
      (badSp :: moreSp)).opf.manifest =
      some (ManifestItem.mk (some navId) navHref (some ncxMediaType)
        :: rest2) from rfl]
    dsimp only
    rw [foldLoop_cons]
    rw [pme_step_ncx_adopt 0 "." (navSpineArchive navId navHref t rest2 fs
      (badSp :: moreSp)) _ _ t hid0 rfl rfl htoc0]
    dsimp only
    simp only [List.nil_append]
    rw [heq]
    dsimp only
    rw [hwb]
    dsimp only
    rw [show st3.tocRoot = some t from by rw [hwtr, htr]]
    dsimp only [replace_all_src_element]
    rw [show (navSpineArchive navId navHref t rest2 fs
      (badSp :: moreSp)).opf.spine = some (badSp :: moreSp) from rfl]
    dsimp only
    rw [foldLoop_cons]
    have hspstep : ∀ (stx : MState), processSpineEntry 0 stx badSp =
        LoopRes.halt Outcome.failed stx := by
      intro stx
      unfold processSpineEntry
      simp [hbad]
    rw [hspstep]
    dsimp only
    refine ⟨rfl, ?_⟩
    show (st3.out).head? = _
    rw [hwout, hout]
    dsimp only
    rfl

theorem claim_C6_witness :
    ((epub_merge [c6Arch]).outcome = Outcome.failed ∧
      ((epub_merge [c6Arch]).out).head? =
        some (MIMETYPE_PATH, Content.bytes MIMETYPE_DATA)) ∧
    ((epub_merge [navSpineArchive "nav" "toc.ncx" (TocRoot.mk [] (some []))
        [] [] [SpineItem.mk none]]).outcome = Outcome.failed ∧
      ((epub_merge [navSpineArchive "nav" "toc.ncx" (TocRoot.mk [] (some []))
        [] [] [SpineItem.mk none]]).out).head? =
        some (MIMETYPE_PATH, Content.bytes MIMETYPE_DATA)) :=
  ⟨claim_C6_amended.1 c6Arch [] [] []
      (ManifestItem.mk none "ch.xhtml" (some xhtmlMediaType)) [] rfl rfl
      (fun i hi => absurd hi (by simp)) (by decide),
   claim_C6_amended.2 "nav" "toc.ncx" (TocRoot.mk [] (some [])) [] []
      (SpineItem.mk none) [] (by decide)
      (fun i hi => absurd hi (by simp)) (by decide)⟩

/-- A stylesheet body (modelled as a parsed tree) whose href value is a
key of its archive's rename mapping. -/
def cssElem : Element :=
  Element.mk "style" [("href", "other.xhtml")] ElemList.nil

/-- Archive with a navigation document, an XHTML chapter and a CSS
stylesheet whose content references the chapter, refuting claim C1. -/
def cssArch : Archive :=
  { containerXml := "c", opfPath := "content.opf",
    opf := { manifest := some [
               ManifestItem.mk (some "n") "toc.ncx" (some ncxMediaType),
               ManifestItem.mk (some "x") "other.xhtml" (some xhtmlMediaType),
               ManifestItem.mk (some "s") "main.css" (some "text/css")],
             spine := some [], metadata := none },
    files := [("toc.ncx", Content.toc (TocRoot.mk [] (some []))),
              ("other.xhtml", Content.xml (Element.mk "html" [] ElemList.nil)),
              ("main.css", Content.xml cssElem)] }

/-- C1 counterexample: in a successful merge, the text/css entry is
written to the output with its content byte-for-byte unmodified, even
though the archive's rename mapping would rewrite its href reference —
CSS is not buffered for reference rewriting, only XHTML is. -/
theorem claim_C1_counterexample :
    (epub_merge [cssArch]).outcome = Outcome.ok ∧
    ("0_main.css", Content.xml cssElem) ∈ (epub_merge [cssArch]).out ∧
    rewriteTree "href"
        [("other.xhtml", "0_other.xhtml"), ("main.css", "0_main.css")]
        cssElem ≠ cssElem :=
  ⟨rfl,
   by
    rw [show (epub_merge [cssArch]).out =
      [(MIMETYPE_PATH, Content.bytes MIMETYPE_DATA),
       (CONTAINER_XML_PATH, Content.bytes "c"),
       ("0_main.css", Content.xml cssElem),
       ("0_other.xhtml", Content.xml (Element.mk "html" [] ElemList.nil)),
       ("content.opf", Content.opf
         { manifest := some [
             ManifestItem.mk (some "n") "toc.ncx" (some ncxMediaType),
             ManifestItem.mk (some "0_x") "0_other.xhtml"
               (some xhtmlMediaType),
             ManifestItem.mk (some "0_s") "0_main.css" (some "text/css")],
           spine := some [], metadata := none }),
       ("toc.ncx", Content.toc (TocRoot.mk [] (some [])))] from rfl]
    simp,
   by
    rw [show rewriteTree "href"
        [("other.xhtml", "0_other.xhtml"), ("main.css", "0_main.css")]
        cssElem =
      Element.mk "style" [("href", "0_other.xhtml")] ElemList.nil from rfl]
    intro h
    injection h with h1 h2 h3
    simp at h2⟩

/-- C1 (amended): for every non-navigation manifest entry, only media
type application/xhtml+xml is buffered for reference rewriting (its
href/src references rewritten with the archive's rename mapping before
the buffered bodies are written); every other media type — text/css
included — is written immediately under the namespaced path with
contents byte-for-byte unmodified. -/
theorem claim_C1_amended :
    (∀ (idx : Nat) (parent : String) (ar : Archive) (a : ArchState)
       (i : ManifestItem) (c : Content),
      i.mediaType ≠ some ncxMediaType →
      pyFalsy i.id = false →
      readFile ar (pathJoin parent i.href) = Except.ok c →
      i.mediaType = some xhtmlMediaType →
      processManifestEntry idx parent ar a i = LoopRes.cont
        { a with
          updatedFiles := dictInsert a.updatedFiles i.href
            (add_prefix_to_file_path (toString idx ++ "_") i.href),
          pathContents := dictInsertC a.pathContents
            (pathJoin parent
              (add_prefix_to_file_path (toString idx ++ "_") i.href)) c,
          st := { a.st with
            outManifest := a.st.outManifest ++ [nsItem idx i] } }) ∧
    (∀ (idx : Nat) (parent : String) (ar : Archive) (a : ArchState)
       (i : ManifestItem) (c : Content),
      i.mediaType ≠ some ncxMediaType →
      pyFalsy i.id = false →
      readFile ar (pathJoin parent i.href) = Except.ok c →
      i.mediaType ≠ some xhtmlMediaType →
      processManifestEntry idx parent ar a i = LoopRes.cont
        { a with
          updatedFiles := dictInsert a.updatedFiles i.href
            (add_prefix_to_file_path (toString idx ++ "_") i.href),
          st := { a.st with
            out := a.st.out ++ [(pathJoin parent
              (add_prefix_to_file_path (toString idx ++ "_") i.href), c)],
            outManifest := a.st.outManifest ++ [nsItem idx i] } }) ∧
    (∀ (pc : List (String × Content)) (m : List (String × String))
       (st : MState),
      (∀ p ∈ pc, ∃ e, p.2 = Content.xml e) →
      ∃ st2, writeBuffered pc m st = LoopRes.cont st2 ∧
        st2.out = st.out ++ pc.map (fun p => (p.1, rewriteContent m p.2))) :=
  ⟨fun idx parent ar a i c hncx hid hread hx =>
    pme_step_xhtml idx parent ar a i c hncx hid hread hx,
   fun idx parent ar a i c hncx hid hread hx =>
    pme_step_other idx parent ar a i c hncx hid hread hx,
   fun pc m st hall => by
    obtain ⟨st2, h1, h2, _⟩ := writeBuffered_ok m pc st hall
    exact ⟨st2, h1, h2⟩⟩

theorem claim_C1_witness :
    (processManifestEntry 0 "." cssArch
        { st := initState, updatedFiles := [], pathContents := [] }
        (ManifestItem.mk (some "x") "other.xhtml" (some xhtmlMediaType)) =
      LoopRes.cont
        { st := { initState with outManifest :=
            [ManifestItem.mk (some "0_x") "0_other.xhtml"
              (some xhtmlMediaType)] },
          updatedFiles := [("other.xhtml", "0_other.xhtml")],
          pathContents := [("0_other.xhtml",
            Content.xml (Element.mk "html" [] ElemList.nil))] }) ∧
    (processManifestEntry 0 "." cssArch
        { st := initState, updatedFiles := [], pathContents := [] }
        (ManifestItem.mk (some "s") "main.css" (some "text/css")) =
      LoopRes.cont
        { st := { initState with
            out := [(MIMETYPE_PATH, Content.bytes MIMETYPE_DATA),
                    ("0_main.css", Content.xml cssElem)],
            outManifest := [ManifestItem.mk (some "0_s") "0_main.css"
              (some "text/css")] },
          updatedFiles := [("main.css", "0_main.css")],
          pathContents := [] }) ∧
    (∃ st2, writeBuffered [("0_other.xhtml",
        Content.xml (Element.mk "html" [] ElemList.nil))]
        [("other.xhtml", "0_other.xhtml")] initState = LoopRes.cont st2 ∧
      st2.out = initState.out ++ [("0_other.xhtml", rewriteContent
        [("other.xhtml", "0_other.xhtml")]
        (Content.xml (Element.mk "html" [] ElemList.nil)))]) :=
  ⟨claim_C1_amended.1 0 "." cssArch
      { st := initState, updatedFiles := [], pathContents := [] }
      (ManifestItem.mk (some "x") "other.xhtml" (some xhtmlMediaType))
      (Content.xml (Element.mk "html" [] ElemList.nil))
      (by decide) (by decide) rfl (by decide),
   claim_C1_amended.2.1 0 "." cssArch
      { st := initState, updatedFiles := [], pathContents := [] }
      (ManifestItem.mk (some "s") "main.css" (some "text/css"))
      (Content.xml cssElem)
      (by decide) (by decide) rfl (by decide),
   claim_C1_amended.2.2
      [("0_other.xhtml", Content.xml (Element.mk "html" [] ElemList.nil))]
      [("other.xhtml", "0_other.xhtml")] initState
      (by
        intro p hp
        simp only [List.mem_singleton] at hp
        subst hp
        exact ⟨Element.mk "html" [] ElemList.nil, rfl⟩)⟩

/-! ## set_cover.py -/

/-- `_check_item_tag_present_in_manifest`: look for
`<item href="cover.jpg" id="cover" media-type="image/jpeg"/>`. -/
def check_item_tag_present_in_manifest (items : List ManifestItem) : Bool :=
  items.any (fun item =>
    item.href == COVER_NAME && item.id == some "cover" &&
      item.mediaType == some "image/jpeg")

/-- `_check_meta_tag_present_in_metadata`: look for
`<meta name="cover" content="cover"/>`. -/
def check_meta_tag_present_in_metadata (metas : List MetaTag) : Bool :=
  metas.any (fun meta =>
    meta.name == some "cover" && meta.content == some "cover")

/-- `copy_zip_with_replacements`: copy every entry, skipping entries
whose name is a destination of `files_to_add` (they get overwritten),
substituting contents for names in `file_replacements`, then writing
each file to add at its destination. -/
def copy_zip_with_replacements (src : List (String × Content))
    (file_replacements : List (String × Content))
    (files_to_add : List (Content × String)) : List (String × Content) :=
  (src.filterMap (fun e =>
    if files_to_add.any (fun f2 => f2.2 == e.1) then none
    else match alistLookupC file_replacements e.1 with
      | some c => some (e.1, c)
      | none => some e))
  ++ files_to_add.map (fun f2 => (f2.2, f2.1))

/-- `set_cover(src_file, dst_file, img_to_add)`: validate the mimetype
marker, read and patch the package document (add the cover item and
meta marker when the presence checks fail), and copy the archive with
the patched package document and the image under the derived cover
path.  The interactive overwrite prompt and filesystem validation are
outside the model; the package-document location stands for the result
of `get_location_of_content_opf_file`, and the container descriptor is
copied verbatim, so the location is stable across runs. -/
def set_cover (entries : List (String × Content)) (opfPath : String)
    (img : Content) : Except PyError (List (String × Content)) :=
  match alistLookupC entries MIMETYPE_PATH with
  | none => Except.error PyError.keyError
  | some (Content.bytes s) =>
    if s = MIMETYPE_DATA then
      match alistLookupC entries opfPath with
      | none => Except.error PyError.keyError
      | some (Content.opf d) =>
        let coverPath := pathJoin (dirnamePy opfPath) COVER_NAME
        let d1 := match d.manifest with
          | some items =>
            if check_item_tag_present_in_manifest items then d
            else { d with manifest := some (items ++
              [ManifestItem.mk (some "cover") coverPath
                (some "image/jpeg")]) }
          | none => d
        let d2 := match d1.metadata with
          | some ms =>
            if check_meta_tag_present_in_metadata ms then d1
            else { d1 with metadata := some (ms ++
              [MetaTag.mk (some "cover") (some "cover")]) }
          | none => d1
        Except.ok (copy_zip_with_replacements entries
          [(opfPath, Content.opf d2)] [(img, coverPath)])
      | some _ => Except.error PyError.xmlSyntaxError
    else Except.error PyError.runtimeError
  | some _ => Except.error PyError.runtimeError

/-- Source archive for claim C7: the package document lives in a
subdirectory (OEBPS/), as in a typical EPUB. -/
def c7Entries : List (String × Content) :=
  [(MIMETYPE_PATH, Content.bytes MIMETYPE_DATA),
   (CONTAINER_XML_PATH, Content.bytes "cx"),
   ("OEBPS/content.opf", Content.opf
     { manifest := some [], spine := some [], metadata := some [] })]

/-- The cover image bytes for claim C7. -/
def c7Img : Content := Content.bytes "jpeg"

/-- C7: set_cover is NOT idempotent when the package document lies in a
subdirectory: the first run inserts an item with href
"OEBPS/cover.jpg", but the presence check of the second run looks for
href "cover.jpg" (the check and the insertion disagree, contradicting
the function's own docstring), so the second run inserts a second cover
item.  After one run the output package document has one id="cover"
item; after two runs it has two. -/
theorem claim_C7_bug :
    (set_cover c7Entries "OEBPS/content.opf" c7Img).map
        (fun out1 => (opfEntries out1).map (fun d =>
          (d.manifest.getD []).countP (fun it => it.id == some "cover"))) =
      Except.ok [1] ∧
    ((set_cover c7Entries "OEBPS/content.opf" c7Img).bind
        (fun out1 => set_cover out1 "OEBPS/content.opf" c7Img)).map
        (fun out2 => (opfEntries out2).map (fun d =>
          (d.manifest.getD []).countP (fun it => it.id == some "cover"))) =
      Except.ok [2] :=
  ⟨rfl, rfl⟩

theorem alistLookupC_eq_none (l : List (String × Content)) (k : String)
    (h : ∀ r ∈ l, k ≠ r.1) : alistLookupC l k = none := by
  unfold alistLookupC
  rw [List.find?_eq_none.mpr]
  · rfl
  · intro p hp
    simp only [beq_eq_false_iff_ne, ne_eq, Bool.not_eq_true, beq_eq_false_iff_ne]
    exact fun he => (h p hp) he.symm

theorem czwr_mem_src (src repl : List (String × Content))
    (toAdd : List (Content × String)) (n : String) (c : Content)
    (hin : (n, c) ∈ src)
    (hrepl : ∀ r ∈ repl, n ≠ r.1)
    (hadd : ∀ f2 ∈ toAdd, n ≠ f2.2) :
    (n, c) ∈ copy_zip_with_replacements src repl toAdd := by
  unfold copy_zip_with_replacements
  refine List.mem_append.mpr (Or.inl ?_)
  refine List.mem_filterMap.mpr ⟨(n, c), hin, ?_⟩
  rw [if_neg]
  · rw [alistLookupC_eq_none repl n hrepl]
  · simp only [Bool.not_eq_true, List.any_eq_false]
    intro f2 hf2
    simp only [beq_eq_false_iff_ne, ne_eq]
    exact fun he => (hadd f2 hf2) he.symm

theorem czwr_mem_add (src repl : List (String × Content))
    (toAdd : List (Content × String)) (f2 : Content × String)
    (hf2 : f2 ∈ toAdd) :
    (f2.2, f2.1) ∈ copy_zip_with_replacements src repl toAdd := by
  unfold copy_zip_with_replacements
  exact List.mem_append.mpr (Or.inr (List.mem_map.mpr ⟨f2, hf2, rfl⟩))

/-- C8: for every successful set_cover run, every entry of the source
archive other than the package document and the derived cover path is
copied to the output archive with its contents byte-for-byte unchanged,
and the image bytes are written under the derived cover path. -/
theorem claim_C8 (entries : List (String × Content)) (opfPath : String)
    (img : Content) (out : List (String × Content))
    (h : set_cover entries opfPath img = Except.ok out) :
    (∀ n c, (n, c) ∈ entries → n ≠ opfPath →
      n ≠ pathJoin (dirnamePy opfPath) COVER_NAME → (n, c) ∈ out) ∧
    (pathJoin (dirnamePy opfPath) COVER_NAME, img) ∈ out := by
  unfold set_cover at h
  cases h1 : alistLookupC entries MIMETYPE_PATH with
  | none => rw [h1] at h; simp at h
  | some mt =>
    rw [h1] at h
    cases mt with
    | bytes s =>
      dsimp only at h
      split at h
      · cases h2 : alistLookupC entries opfPath with
        | none => rw [h2] at h; simp at h
        | some copf =>
          rw [h2] at h
          cases copf with
          | opf d =>
            dsimp only at h
            rw [Except.ok.injEq] at h
            subst h
            constructor
            · intro n c hin hne1 hne2
              refine czwr_mem_src _ _ _ n c hin ?_ ?_
              · intro r hr
                simp only [List.mem_singleton] at hr
                subst hr
                exact hne1
              · intro f2 hf2
                simp only [List.mem_singleton] at hf2
                subst hf2
                exact hne2
            · exact czwr_mem_add _ _ _ (img, pathJoin (dirnamePy opfPath)
                COVER_NAME) (by simp)
          | bytes s2 => simp at h
          | xml e => simp at h
          | toc t => simp at h
      · simp at h
    | xml e => simp at h
    | toc t => simp at h
    | opf d => simp at h

/-- Source archive for the claim_C8 witness. -/
def w8Entries : List (String × Content) :=
  [(MIMETYPE_PATH, Content.bytes MIMETYPE_DATA),
   ("style.css", Content.bytes "css"),
   ("content.opf", Content.opf
     { manifest := some [], spine := some [], metadata := some [] })]

/-- Output of set_cover on the claim_C8 witness archive. -/
def w8Out : List (String × Content) :=
  [(MIMETYPE_PATH, Content.bytes MIMETYPE_DATA),
   ("style.css", Content.bytes "css"),
   ("content.opf", Content.opf
     { manifest := some [ManifestItem.mk (some "cover") "cover.jpg"
         (some "image/jpeg")],
       spine := some [],
       metadata := some [MetaTag.mk (some "cover") (some "cover")] }),
   ("cover.jpg", Content.bytes "jpeg")]

theorem claim_C8_witness :
    (∀ n c, (n, c) ∈ w8Entries → n ≠ "content.opf" →
      n ≠ pathJoin (dirnamePy "content.opf") COVER_NAME → (n, c) ∈ w8Out) ∧
    (pathJoin (dirnamePy "content.opf") COVER_NAME, Content.bytes "jpeg")
      ∈ w8Out :=
  claim_C8 w8Entries "content.opf" (Content.bytes "jpeg") w8Out rfl
